import Mathlib

set_option autoImplicit false

/-!
Shallow embedding of `src/llmq/blockprocessor.cpp` (the quorum-commitment
block processor).  Hashes (`uint256`) are modelled as `Nat`, with `0` playing
the role of the null hash.  LLMQ types are modelled as `Nat`.  The evo DB and
the in-memory maps of `CQuorumBlockProcessor` are modelled as a single
explicit state record with finitely-updated function fields; external
collaborators (chain index, activation predicates, BLS verification,
`SerializeHash`) are packaged into an environment record, mirroring how the
source consumes them as opaque capabilities.
-/

namespace llmq

/-- `Consensus::LLMQParams`: the per-committee-type parameters that
`blockprocessor.cpp` reads (`type`, `dkgInterval`, `dkgMiningWindowStart`,
`dkgMiningWindowEnd`, `signingActiveQuorumCount`). -/
structure LLMQParams where
  type : Nat
  dkgInterval : Nat
  dkgMiningWindowStart : Nat
  dkgMiningWindowEnd : Nat
  signingActiveQuorumCount : Nat
deriving DecidableEq

/-- `CFinalCommitment`: the fields used by `blockprocessor.cpp`
(`llmqType`, `quorumIndex`, `nVersion`, `quorumHash`, the signer and
valid-member bitsets). -/
structure CFinalCommitment where
  llmqType : Nat
  quorumIndex : Nat
  nVersion : Nat
  quorumHash : Nat
  signers : List Bool
  validMembers : List Bool
deriving DecidableEq

/-- `CFinalCommitment::CountSigners()`: popcount of the signer bitset. -/
def CFinalCommitment.countSigners (c : CFinalCommitment) : Nat :=
  c.signers.count true

/-- Modelled from the spec: `CFinalCommitment::IsNull()` lives in
`llmq/commitment.cpp`, which is not part of this repository slice.  The spec
says a commitment is null iff no DKG completed for the slot, and that a null
commitment "has empty member/signer sets"; we model nullness as both bitsets
being empty of set bits. -/
def CFinalCommitment.isNull (c : CFinalCommitment) : Bool :=
  c.signers.count true == 0 && c.validMembers.count true == 0

/-- A transaction as seen by `GetCommitmentsFromBlock`: either a
non-commitment transaction, or a `TRANSACTION_QUORUM_COMMITMENT` special
transaction whose payload decodes to a commitment (`none` models a
`GetTxPayload` failure). -/
inductive BlockTx where
  | other
  | qcTx (payload : Option CFinalCommitment)
deriving DecidableEq

/-- A block: its transaction list and its hash. -/
structure Block where
  txs : List BlockTx
  hash : Nat
deriving DecidableEq

/-- External collaborators of the block processor, read-only during one call:
the chain index (`ChainActive`), deployment activations, LLMQ parameter
lookup, BLS verification and `SerializeHash`.  The spec treats all of these
as opaque capabilities. -/
structure ChainEnv where
  /-- `Params().GetConsensus().DIP0003Height`. -/
  dip0003Height : Nat
  /-- `::ChainActive().Height()`; `none` models `Tip() == nullptr`
  (crash-replay). -/
  chainHeight : Option Nat
  /-- `GetBlockHash(out, h)` on the active chain; `none` models failure. -/
  blockHashAt : Nat → Option Nat
  /-- `LookupBlockIndex(hash)->nHeight`; `none` models a missing index. -/
  lookupBlockHeight : Nat → Option Nat
  /-- `utils::IsQuorumRotationEnabled(params, pindex)`, keyed by the
  parameter's `type` and the reference block's height. -/
  rotation : Nat → Nat → Bool
  /-- `GetLLMQParams(llmqType)`. -/
  llmqParams : Nat → Option LLMQParams
  /-- `utils::GetEnabledQuorumParams(pindex->pprev)`, keyed by the previous
  block's height. -/
  enabledParams : Nat → List LLMQParams
  /-- `utils::IsV19Active(pindex)`, keyed by height. -/
  v19Active : Nat → Bool
  /-- `qc.Verify(pQuorumBaseBlockIndex, fBLSChecks)`. -/
  verify : CFinalCommitment → Bool → Bool
  /-- `qc.VerifyNull()`. -/
  verifyNull : CFinalCommitment → Bool
  /-- `::SerializeHash(qc)`. -/
  serHash : CFinalCommitment → Nat

/-- Pointwise update of a one-argument finite map. -/
def set1 {α : Type} (f : Nat → Option α) (a : Nat) (v : Option α) :
    Nat → Option α :=
  fun x => if x = a then v else f x

/-- Pointwise update of a two-argument finite map. -/
def set2 {α : Type} (f : Nat → Nat → Option α) (a b : Nat) (v : Option α) :
    Nat → Nat → Option α :=
  fun x y => if x = a ∧ y = b then v else f x y

/-- Pointwise update of a three-argument finite map. -/
def set3 {α : Type} (f : Nat → Nat → Nat → Option α) (a b c : Nat)
    (v : Option α) : Nat → Nat → Nat → Option α :=
  fun x y z => if x = a ∧ y = b ∧ z = c then v else f x y z

/-- `std::map::emplace`: insert only when the key is absent. -/
def emplace1 {α : Type} (f : Nat → Option α) (k : Nat) (v : α) :
    Nat → Option α :=
  match f k with
  | some _ => f
  | none => set1 f k (some v)

/-- The processor's state: the evo DB records (`q_mc` primary records keyed
by (type, quorumHash); the flat and the per-index inverted-height reverse
indexes, keyed here by the decoded (type, minedHeight) resp.
(type, quorumIndex, minedHeight) since the byte encoding — proved injective
and order-preserving below — is a bijective key transform; the `q_bbu2`
best-block marker) together with the in-memory maps
(`mapHasMinedCommitmentCache`, `minableCommitmentsByQuorum`,
`minableCommitments`). -/
structure ProcState where
  mined : Nat → Nat → Option (CFinalCommitment × Nat)
  invFlat : Nat → Nat → Option Nat
  invIndexed : Nat → Nat → Nat → Option Nat
  bestBlock : Option Nat
  hasMinedCommitmentCache : Nat → Nat → Option Bool
  minableByQuorum : Nat → Nat → Option Nat
  minableCommitments : Nat → Option CFinalCommitment

/-- The all-empty processor state. -/
def emptyState : ProcState where
  mined := fun _ _ => none
  invFlat := fun _ _ => none
  invIndexed := fun _ _ _ => none
  bestBlock := none
  hasMinedCommitmentCache := fun _ _ => none
  minableByQuorum := fun _ _ => none
  minableCommitments := fun _ => none

/-- `CQuorumBlockProcessor::HasMinedCommitment`: cache-first existence
check; a cache miss reads the DB and populates the cache (the C++ method is
`const` but mutates the `mutable` cache, so we thread the state). -/
def hasMinedCommitment (s : ProcState) (t qh : Nat) : Bool × ProcState :=
  match s.hasMinedCommitmentCache t qh with
  | some fExists => (fExists, s)
  | none =>
    let fExists := (s.mined t qh).isSome
    (fExists,
     { s with hasMinedCommitmentCache := set2 s.hasMinedCommitmentCache t qh (some fExists) })

/-- `CQuorumBlockProcessor::GetQuorumBlockHash`: hash of the block at
`nHeight - (nHeight % dkgInterval) + quorumIndex`, or the null hash (0) when
`GetBlockHash` fails. -/
def getQuorumBlockHash (env : ChainEnv) (p : LLMQParams)
    (nHeight quorumIndex : Nat) : Nat :=
  let quorumStartHeight := nHeight - nHeight % p.dkgInterval + quorumIndex
  match env.blockHashAt quorumStartHeight with
  | none => 0
  | some h => h

/-- `CQuorumBlockProcessor::IsMiningPhase`. -/
def isMiningPhase (p : LLMQParams) (nHeight : Nat) : Bool :=
  let quorumCycleStartHeight := nHeight - nHeight % p.dkgInterval
  decide (quorumCycleStartHeight + p.dkgMiningWindowStart ≤ nHeight) &&
    decide (nHeight ≤ quorumCycleStartHeight + p.dkgMiningWindowEnd)

/-- The height of the block index selected by
`::ChainActive().Height() < nHeight ? Tip() : Tip()->GetAncestor(nHeight)`
(the rotation/V19 reference block in `GetNumCommitmentsRequired` and
`GetMineableCommitments`). -/
def rotationRefHeight (env : ChainEnv) (nHeight : Nat) : Nat :=
  match env.chainHeight with
  | none => nHeight
  | some ch => if ch < nHeight then ch else nHeight

/-- `CQuorumBlockProcessor::GetNumCommitmentsRequired`: 0 outside the mining
phase, else one count per sub-index (all of `0 ..
signingActiveQuorumCount-1` under rotation, only index 0 otherwise) whose
quorum block hash is non-null and not yet mined.  The state is threaded
because `HasMinedCommitment` populates the existence cache. -/
def getNumCommitmentsRequired (env : ChainEnv) (s : ProcState)
    (p : LLMQParams) (nHeight : Nat) : Nat × ProcState :=
  if !isMiningPhase p nHeight then (0, s)
  else
    let rotation_enabled := env.rotation p.type (rotationRefHeight env nHeight)
    let quorums_num := if rotation_enabled then p.signingActiveQuorumCount else 1
    (List.range quorums_num).foldl
      (fun acc quorumIndex =>
        let quorumHash := getQuorumBlockHash env p nHeight quorumIndex
        if quorumHash != 0 then
          let r := hasMinedCommitment acc.2 p.type quorumHash
          if r.1 then (acc.1, r.2) else (acc.1 + 1, r.2)
        else acc)
      (0, s)

/-- Number of commitments of a given type in an extracted list
(`qcs.count(params.type)` on the multimap). -/
def countType (qcs : List CFinalCommitment) (t : Nat) : Nat :=
  qcs.countP (fun qc => qc.llmqType == t)

/-- The transaction-scanning loop of
`CQuorumBlockProcessor::GetCommitmentsFromBlock`: decode each
`TRANSACTION_QUORUM_COMMITMENT` payload, reject unknown types, and — unless
rotation is enabled for the type at this block — reject a second commitment
of a type already collected. -/
def extractLoop (env : ChainEnv) (pindexHeight : Nat) :
    List BlockTx → List CFinalCommitment →
    Except String (List CFinalCommitment)
  | [], acc => .ok acc
  | tx :: rest, acc =>
    match tx with
    | .other => extractLoop env pindexHeight rest acc
    | .qcTx none => .error "bad-qc-payload"
    | .qcTx (some qc) =>
      match env.llmqParams qc.llmqType with
      | none => .error "bad-qc-commitment-type"
      | some params =>
        if !env.rotation params.type pindexHeight &&
            countType acc qc.llmqType != 0 then
          .error "bad-qc-dup"
        else
          extractLoop env pindexHeight rest (acc ++ [qc])

/-- `CQuorumBlockProcessor::GetCommitmentsFromBlock`: scan the block, then
reject any pre-DIP0003 block that yielded commitments (`bad-qc-premature`). -/
def getCommitmentsFromBlock (env : ChainEnv) (blk : Block)
    (pindexHeight : Nat) : Except String (List CFinalCommitment) :=
  match extractLoop env pindexHeight blk.txs [] with
  | .error e => .error e
  | .ok ret =>
    if pindexHeight < env.dip0003Height && !ret.isEmpty then
      .error "bad-qc-premature"
    else .ok ret

/-- `CQuorumBlockProcessor::ProcessCommitment`.  On the error branches the
block is rejected and the evo DB write batch is discarded, so the error
carries only the rejection reason.  Note that the final `q_mc` write, the
reverse-index write, the cache invalidation and the mineable-pool eviction
only run when `fJustCheck` is false and the commitment is non-null. -/
def processCommitment (env : ChainEnv) (s : ProcState)
    (nHeight blockHash : Nat) (qc : CFinalCommitment)
    (fJustCheck fBLSChecks : Bool) : Except String ProcState :=
  match env.llmqParams qc.llmqType with
  | none => .error "bad-qc-commitment-type"
  | some llmq_params =>
    let quorumHash0 := getQuorumBlockHash env llmq_params nHeight qc.quorumIndex
    -- skip the `bad-qc-block` recomputation when replaying after a crash
    let quorumHash := if env.chainHeight.isNone then qc.quorumHash else quorumHash0
    if quorumHash == 0 then .error "bad-qc-block"
    else if quorumHash != qc.quorumHash then .error "bad-qc-block"
    else if qc.isNull then
      if !env.verifyNull qc then .error "bad-qc-invalid-null"
      else .ok s
    else
      let r := hasMinedCommitment s llmq_params.type quorumHash
      if r.1 then .error "bad-qc-dup"
      else if !isMiningPhase llmq_params nHeight then .error "bad-qc-height"
      else if !env.verify qc fBLSChecks then .error "bad-qc-invalid"
      else if fJustCheck then .ok r.2
      else
        let quorumBaseHeight := (env.lookupBlockHeight qc.quorumHash).getD 0
        let rotation_enabled := env.rotation llmq_params.type quorumBaseHeight
        let s2 := { r.2 with
          mined := set2 r.2.mined llmq_params.type quorumHash
            (some (qc, blockHash)) }
        let s3 :=
          if rotation_enabled then
            { s2 with invIndexed := set3 s2.invIndexed llmq_params.type qc.quorumIndex nHeight (some quorumBaseHeight) }
          else
            { s2 with invFlat := set2 s2.invFlat llmq_params.type nHeight (some quorumBaseHeight) }
        .ok { s3 with
          hasMinedCommitmentCache := set2 s3.hasMinedCommitmentCache qc.llmqType qc.quorumHash none,
          minableByQuorum := set2 s3.minableByQuorum llmq_params.type quorumHash none,
          minableCommitments := set1 s3.minableCommitments (env.serHash qc) none }

/-- The enabled-parameter count-check loop of
`CQuorumBlockProcessor::ProcessBlock`: the checks are skipped wholesale when
the chain tip is null (crash replay), otherwise a type with more commitments
than required rejects with `bad-qc-not-allowed` and one with fewer rejects
with `bad-qc-missing`. -/
def countCheckLoop (env : ChainEnv) (qcs : List CFinalCommitment)
    (nHeight : Nat) : List LLMQParams → ProcState → Except String ProcState
  | [], s => .ok s
  | p :: ps, s =>
    if env.chainHeight.isNone then .ok s
    else
      let r := getNumCommitmentsRequired env s p nHeight
      if r.1 < countType qcs p.type then .error "bad-qc-not-allowed"
      else if countType qcs p.type < r.1 then .error "bad-qc-missing"
      else countCheckLoop env qcs nHeight ps r.2

/-- The per-commitment application loop of `ProcessBlock`. -/
def applyCommitments (env : ChainEnv) (nHeight blockHash : Nat)
    (fJustCheck fBLSChecks : Bool) :
    List CFinalCommitment → ProcState → Except String ProcState
  | [], s => .ok s
  | qc :: rest, s =>
    match processCommitment env s nHeight blockHash qc fJustCheck fBLSChecks with
    | .error e => .error e
    | .ok s' => applyCommitments env nHeight blockHash fJustCheck fBLSChecks rest s'

/-- `CQuorumBlockProcessor::ProcessBlock`.  The BLS-scheme toggle and the
quorum-member precomputation touch no processor state and are omitted.
Below DIP0003 the block takes the trivial path: write the best-block marker
and succeed.  Otherwise: extract, run the count checks against the types
enabled at the previous block, apply each commitment, then write the
best-block marker. -/
def processBlock (env : ChainEnv) (s : ProcState) (blk : Block)
    (nHeight : Nat) (fJustCheck fBLSChecks : Bool) :
    Except String ProcState :=
  if nHeight < env.dip0003Height then
    .ok { s with bestBlock := some blk.hash }
  else
    match getCommitmentsFromBlock env blk nHeight with
    | .error e => .error e
    | .ok qcs =>
      match countCheckLoop env qcs nHeight (env.enabledParams (nHeight - 1)) s with
      | .error e => .error e
      | .ok s1 =>
        match applyCommitments env nHeight blk.hash fJustCheck fBLSChecks qcs s1 with
        | .error e => .error e
        | .ok s2 => .ok { s2 with bestBlock := some blk.hash }

/-- `CQuorumBlockProcessor::AddMineableCommitment`: returns the relay signal
together with the updated pool.  The source first overwrites the by-quorum
entry with the new hash and then erases `ins.first->second` — which at that
point already names the *new* hash — from `minableCommitments` before
re-inserting it, so the superseded record itself is left in place; we mirror
that sequence exactly. -/
def addMineableCommitment (env : ChainEnv) (s : ProcState)
    (fqc : CFinalCommitment) : Bool × ProcState :=
  let commitmentHash := env.serHash fqc
  match s.minableByQuorum fqc.llmqType fqc.quorumHash with
  | none =>
    (true, { s with
      minableByQuorum :=
        set2 s.minableByQuorum fqc.llmqType fqc.quorumHash (some commitmentHash),
      minableCommitments := emplace1 s.minableCommitments commitmentHash fqc })
  | some oldHash =>
    match s.minableCommitments oldHash with
    | none => (false, s)  -- `map::at` presupposes the entry exists
    | some oldFqc =>
      if oldFqc.countSigners < fqc.countSigners then
        let s1 := { s with
          minableByQuorum :=
            set2 s.minableByQuorum fqc.llmqType fqc.quorumHash
              (some commitmentHash) }
        let s2 := { s1 with
          minableCommitments := set1 s1.minableCommitments commitmentHash none }
        (true, { s2 with
          minableCommitments := emplace1 s2.minableCommitments commitmentHash fqc })
      else (false, s)

/-- The best known mineable candidate for a slot: the
`minableCommitmentsByQuorum` entry resolved through `minableCommitments`
(the lookup pattern of `ProcessMessage` and `GetMineableCommitments`). -/
def bestFor (s : ProcState) (t qh : Nat) : Option CFinalCommitment :=
  match s.minableByQuorum t qh with
  | none => none
  | some h => s.minableCommitments h

/-- One iteration of the `UndoBlock` loop: null commitments are skipped;
otherwise erase the primary record, erase the reverse-index entry chosen by
the rotation flag at the undone block, invalidate the existence cache and
re-admit the commitment to the mineable pool.  `GetLLMQParams` is asserted
to succeed in the source and its `.type` equals `qc.llmqType`. -/
def undoOne (env : ChainEnv) (nHeight : Nat) (s : ProcState)
    (qc : CFinalCommitment) : ProcState :=
  if qc.isNull then s
  else
    let s1 := { s with mined := set2 s.mined qc.llmqType qc.quorumHash none }
    let s2 :=
      if env.rotation qc.llmqType nHeight then
        { s1 with invIndexed := set3 s1.invIndexed qc.llmqType qc.quorumIndex nHeight none }
      else
        { s1 with invFlat := set2 s1.invFlat qc.llmqType nHeight none }
    let s3 := { s2 with
      hasMinedCommitmentCache :=
        set2 s2.hasMinedCommitmentCache qc.llmqType qc.quorumHash none }
    (addMineableCommitment env s3 qc).2

/-- `CQuorumBlockProcessor::UndoBlock`: re-extract the commitments, undo each
non-null one, and move the best-block marker to the parent block. -/
def undoBlock (env : ChainEnv) (s : ProcState) (blk : Block)
    (nHeight prevBlockHash : Nat) : Except String ProcState :=
  match getCommitmentsFromBlock env blk nHeight with
  | .error e => .error e
  | .ok qcs =>
    .ok { qcs.foldl (undoOne env nHeight) s with
      bestBlock := some prevBlockHash }

/-- Modelled from the spec: `CFinalCommitment::GetVersion(rotation, basicBLS)`
is in `llmq/commitment.cpp`, outside this repository slice; the spec only
requires a version stamp that encodes whether rotation and which signature
scheme apply. -/
def getVersion (rotation_enabled basic_bls_enabled : Bool) : Nat :=
  (if rotation_enabled then 2 else 1) + (if basic_bls_enabled then 2 else 0)

/-- Modelled from the spec: the `CFinalCommitment(params, quorumHash)`
constructor (outside this slice) builds a null commitment for the slot —
type and quorum hash set, empty signer/member sets. -/
def buildNullCommitment (p : LLMQParams) (qh : Nat) : CFinalCommitment :=
  { llmqType := p.type, quorumIndex := 0, nVersion := 0, quorumHash := qh,
    signers := [], validMembers := [] }

/-- The candidate-collection loop of
`CQuorumBlockProcessor::GetMineableCommitments`: stop at the first
unresolvable quorum hash, skip already-mined slots, and for the rest take
the pooled candidate or synthesize a null commitment stamped with the index
and version. -/
def mineLoop (env : ChainEnv) (p : LLMQParams) (nHeight : Nat)
    (rotation_enabled basic_bls_enabled : Bool) :
    List Nat → ProcState → List CFinalCommitment →
    List CFinalCommitment × ProcState
  | [], s, acc => (acc, s)
  | quorumIndex :: rest, s, acc =>
    let quorumHash := getQuorumBlockHash env p nHeight quorumIndex
    if quorumHash == 0 then (acc, s)
    else
      let r := hasMinedCommitment s p.type quorumHash
      if r.1 then mineLoop env p nHeight rotation_enabled basic_bls_enabled rest r.2 acc
      else
        let cf :=
          match r.2.minableByQuorum p.type quorumHash with
          | none =>
            { buildNullCommitment p quorumHash with
                quorumIndex := quorumIndex,
                nVersion := getVersion rotation_enabled basic_bls_enabled }
          | some h => (r.2.minableCommitments h).getD (buildNullCommitment p quorumHash)
        mineLoop env p nHeight rotation_enabled basic_bls_enabled rest r.2 (acc ++ [cf])

/-- `CQuorumBlockProcessor::GetMineableCommitments`: `none` when no
commitment is required or when the loop collected nothing, otherwise the
collected list. -/
def getMineableCommitments (env : ChainEnv) (s : ProcState)
    (p : LLMQParams) (nHeight : Nat) :
    Option (List CFinalCommitment) × ProcState :=
  let r0 := getNumCommitmentsRequired env s p nHeight
  if r0.1 == 0 then (none, r0.2)
  else
    let rotation_enabled := env.rotation p.type (rotationRefHeight env nHeight)
    let basic_bls_enabled := env.v19Active (rotationRefHeight env nHeight)
    let quorums_num := if rotation_enabled then p.signingActiveQuorumCount else 1
    let r := mineLoop env p nHeight rotation_enabled basic_bls_enabled
      (List.range quorums_num) r0.2 []
    if r.1.isEmpty then (none, r.2) else (some r.1, r.2)

/-- `htobe32`: big-endian byte decomposition of a 32-bit value. -/
def htobe32 (v : Nat) : List Nat :=
  [v / 16777216 % 256, v / 65536 % 256, v / 256 % 256, v % 256]

/-- `be32toh` as used on line 565: recompose a big-endian 4-byte key part. -/
def be32toh (bs : List Nat) : Nat :=
  match bs with
  | [b3, b2, b1, b0] => ((b3 * 256 + b2) * 256 + b1) * 256 + b0
  | _ => 0

/-- `std::numeric_limits<uint32_t>::max()`. -/
def UINT32_MAX : Nat := 4294967295

/-- `BuildInversedHeightKey`: `(DB_MINED_COMMITMENT_BY_INVERSED_HEIGHT,
llmqType, htobe32(UINT32_MAX - nMinedHeight))`; the namespace tag is
modelled by the number 1. -/
def buildInversedHeightKey (llmqType nMinedHeight : Nat) :
    Nat × Nat × List Nat :=
  (1, llmqType, htobe32 (UINT32_MAX - nMinedHeight))

/-- `BuildInversedHeightKeyIndexed`: the per-index variant (namespace tag 2,
with the quorum index between the type and the inverted height). -/
def buildInversedHeightKeyIndexed (llmqType nMinedHeight quorumIndex : Nat) :
    Nat × Nat × Nat × List Nat :=
  (2, llmqType, quorumIndex, htobe32 (UINT32_MAX - nMinedHeight))

/-- Byte-wise lexicographic comparison, the order of the underlying
byte-ordered key-value store on serialized keys. -/
def bytesLtB : List Nat → List Nat → Bool
  | [], [] => false
  | [], _ :: _ => true
  | _ :: _, [] => false
  | a :: as, b :: bs => decide (a < b) || (a == b && bytesLtB as bs)

/-- Serialized-key order for flat inverted-height keys. -/
def invKeyLtB (k1 k2 : Nat × Nat × List Nat) : Bool :=
  decide (k1.1 < k2.1) ||
    (k1.1 == k2.1 &&
      (decide (k1.2.1 < k2.2.1) ||
        (k1.2.1 == k2.2.1 && bytesLtB k1.2.2 k2.2.2)))

/-- Serialized-key order for per-index inverted-height keys. -/
def invKeyIndexedLtB (k1 k2 : Nat × Nat × Nat × List Nat) : Bool :=
  decide (k1.1 < k2.1) ||
    (k1.1 == k2.1 &&
      (decide (k1.2.1 < k2.2.1) ||
        (k1.2.1 == k2.2.1 &&
          (decide (k1.2.2.1 < k2.2.2.1) ||
            (k1.2.2.1 == k2.2.2.1 && bytesLtB k1.2.2.2 k2.2.2.2)))))

/-- The decoding on line 565: `UINT32_MAX - be32toh(stored bytes)` recovers
the mined height from a flat reverse-index key. -/
def decodeInvHeightKey (k : Nat × Nat × List Nat) : Nat :=
  UINT32_MAX - be32toh k.2.2

/-- Cache coherence: every populated existence-cache entry agrees with the
presence of the primary record.  `HasMinedCommitment` only ever populates
the cache with the DB truth, and both `ProcessCommitment` and `UndoBlock`
erase the entry when they touch the record, so every reachable state is
coherent. -/
def coherent (s : ProcState) : Prop :=
  ∀ t qh b, s.hasMinedCommitmentCache t qh = some b → b = (s.mined t qh).isSome

/-- Spec-side definition (`RequiredCommitmentCount`, 4.1 of the spec, for
claim C3): 0 outside the mining phase; otherwise the number of sub-indexes
(ranging over `0 .. signingActiveQuorumCount-1` with rotation enabled, and
only index 0 otherwise) whose committee block hash is non-null and for which
no confirmed commitment exists in the store `M`. -/
def requiredCommitmentCountSpec (env : ChainEnv)
    (M : Nat → Nat → Option (CFinalCommitment × Nat)) (p : LLMQParams)
    (nHeight : Nat) : Nat :=
  if isMiningPhase p nHeight then
    (List.range (if env.rotation p.type (rotationRefHeight env nHeight) then
        p.signingActiveQuorumCount else 1)).countP
      (fun qi => getQuorumBlockHash env p nHeight qi != 0 &&
        !(M p.type (getQuorumBlockHash env p nHeight qi)).isSome)
  else 0

/- ### Concrete fixtures (used by the witness theorems and counterexamples) -/

/-- The spec's running example parameters: `dkgInterval = 24`,
`dkgMiningWindowStart = 5`, `dkgMiningWindowEnd = 10`,
`signingActiveQuorumCount = 1`, as committee type 1. -/
def exParams : LLMQParams :=
  { type := 1, dkgInterval := 24, dkgMiningWindowStart := 5,
    dkgMiningWindowEnd := 10, signingActiveQuorumCount := 1 }

/-- A concrete non-null commitment for the slot (type 1, quorum hash 42). -/
def exA : CFinalCommitment :=
  { llmqType := 1, quorumIndex := 0, nVersion := 1, quorumHash := 42,
    signers := [true], validMembers := [true] }

/-- A second commitment for the same slot with a strictly larger signer
count. -/
def exB : CFinalCommitment :=
  { llmqType := 1, quorumIndex := 0, nVersion := 1, quorumHash := 42,
    signers := [true, true], validMembers := [true, true] }

/-- A concrete null commitment for the same slot. -/
def exNull : CFinalCommitment :=
  { llmqType := 1, quorumIndex := 0, nVersion := 1, quorumHash := 42,
    signers := [false], validMembers := [false] }

/-- A concrete environment: chain at height 29, DIP0003 active from genesis,
block 24 (the cycle start of height 29) has hash 42, rotation disabled,
type 1 enabled with `exParams`, all verifications passing, and a
serialize-hash that just measures the signer bitset length (injective on the
fixtures). -/
def exEnv : ChainEnv :=
  { dip0003Height := 0,
    chainHeight := some 29,
    blockHashAt := fun h => if h = 24 then some 42 else none,
    lookupBlockHeight := fun h => if h = 42 then some 24 else none,
    rotation := fun _ _ => false,
    llmqParams := fun t => if t = 1 then some exParams else none,
    enabledParams := fun _ => [exParams],
    v19Active := fun _ => false,
    verify := fun _ _ => true,
    verifyNull := fun _ => true,
    serHash := fun c => c.signers.length }

/-- `exEnv` with rotation enabled for every type. -/
def exEnvRot : ChainEnv := { exEnv with rotation := fun _ _ => true }

/-- `exEnv` with the DIP0003 activation height raised to 100, so heights
below 100 are pre-activation. -/
def exEnvPre : ChainEnv := { exEnv with dip0003Height := 100 }

/-- A block containing exactly one commitment transaction (`exA`). -/
def exBlock : Block := { txs := [BlockTx.qcTx (some exA)], hash := 77 }

/-- A block with no commitment transactions. -/
def exEmptyBlock : Block := { txs := [BlockTx.other], hash := 78 }

end llmq

namespace llmq

/- ### Pointwise-update lemmas -/

theorem set1_self {α : Type} (f : Nat → Option α) (a : Nat) (v : Option α) :
    set1 f a v a = v := by
  simp [set1]

theorem set1_other {α : Type} (f : Nat → Option α) (a : Nat) (v : Option α)
    (x : Nat) (h : x ≠ a) : set1 f a v x = f x := by
  simp [set1, h]

theorem set1_set1 {α : Type} (f : Nat → Option α) (a : Nat) (v w : Option α) :
    set1 (set1 f a v) a w = set1 f a w := by
  funext x
  by_cases h : x = a <;> simp [set1, h]

theorem set1_cancel {α : Type} (f : Nat → Option α) (a : Nat) (v : Option α)
    (h : f a = v) : set1 f a v = f := by
  funext x
  by_cases hx : x = a <;> simp [set1, hx, h.symm]

theorem set2_self {α : Type} (f : Nat → Nat → Option α) (a b : Nat)
    (v : Option α) : set2 f a b v a b = v := by
  simp [set2]

theorem set2_other {α : Type} (f : Nat → Nat → Option α) (a b : Nat)
    (v : Option α) (x y : Nat) (h : ¬(x = a ∧ y = b)) :
    set2 f a b v x y = f x y := by
  simp [set2, h]

theorem set2_set2 {α : Type} (f : Nat → Nat → Option α) (a b : Nat)
    (v w : Option α) : set2 (set2 f a b v) a b w = set2 f a b w := by
  funext x y
  by_cases h : x = a ∧ y = b <;> simp [set2, h]

theorem set2_cancel {α : Type} (f : Nat → Nat → Option α) (a b : Nat)
    (v : Option α) (h : f a b = v) : set2 f a b v = f := by
  funext x y
  by_cases hx : x = a ∧ y = b
  · obtain ⟨hx1, hx2⟩ := hx
    subst hx1; subst hx2
    simp [set2, h.symm]
  · simp [set2, hx]

theorem set3_self {α : Type} (f : Nat → Nat → Nat → Option α) (a b c : Nat)
    (v : Option α) : set3 f a b c v a b c = v := by
  simp [set3]

theorem set3_other {α : Type} (f : Nat → Nat → Nat → Option α) (a b c : Nat)
    (v : Option α) (x y z : Nat) (h : ¬(x = a ∧ y = b ∧ z = c)) :
    set3 f a b c v x y z = f x y z := by
  simp [set3, h]

theorem set3_set3 {α : Type} (f : Nat → Nat → Nat → Option α) (a b c : Nat)
    (v w : Option α) : set3 (set3 f a b c v) a b c w = set3 f a b c w := by
  funext x y z
  by_cases h : x = a ∧ y = b ∧ z = c <;> simp [set3, h]

theorem set3_cancel {α : Type} (f : Nat → Nat → Nat → Option α) (a b c : Nat)
    (v : Option α) (h : f a b c = v) : set3 f a b c v = f := by
  funext x y z
  by_cases hx : x = a ∧ y = b ∧ z = c
  · obtain ⟨h1, h2, h3⟩ := hx
    subst h1; subst h2; subst h3
    simp [set3, h.symm]
  · simp [set3, hx]

/- ### C6: inverted-height key encoding -/

theorem be32toh_htobe32 (v : Nat) (hv : v < 4294967296) :
    be32toh (htobe32 v) = v := by
  simp [htobe32, be32toh]
  omega

theorem bytesLtB_four (a3 a2 a1 a0 b3 b2 b1 b0 : Nat)
    (ha3 : a3 < 256) (ha2 : a2 < 256) (ha1 : a1 < 256) (ha0 : a0 < 256)
    (hb3 : b3 < 256) (hb2 : b2 < 256) (hb1 : b1 < 256) (hb0 : b0 < 256) :
    (bytesLtB [a3, a2, a1, a0] [b3, b2, b1, b0] = true ↔
      ((a3 * 256 + a2) * 256 + a1) * 256 + a0 <
        ((b3 * 256 + b2) * 256 + b1) * 256 + b0) := by
  simp only [bytesLtB, Bool.or_eq_true, Bool.and_eq_true, decide_eq_true_eq,
    beq_iff_eq, Bool.false_eq_true, and_false, or_false]
  omega

theorem bytesLtB_htobe32 (a b : Nat) (ha : a < 4294967296)
    (hb : b < 4294967296) :
    (bytesLtB (htobe32 a) (htobe32 b) = true ↔ a < b) := by
  have ea := be32toh_htobe32 a ha
  have eb := be32toh_htobe32 b hb
  simp only [htobe32, be32toh] at ea eb
  show bytesLtB [a / 16777216 % 256, a / 65536 % 256, a / 256 % 256, a % 256]
      [b / 16777216 % 256, b / 65536 % 256, b / 256 % 256, b % 256] = true ↔ a < b
  rw [bytesLtB_four _ _ _ _ _ _ _ _ (Nat.mod_lt _ (by norm_num))
    (Nat.mod_lt _ (by norm_num)) (Nat.mod_lt _ (by norm_num))
    (Nat.mod_lt _ (by norm_num)) (Nat.mod_lt _ (by norm_num))
    (Nat.mod_lt _ (by norm_num)) (Nat.mod_lt _ (by norm_num))
    (Nat.mod_lt _ (by norm_num)), ea, eb]

/-- C6: for mined heights `h1 < h2` (both 32-bit representable), the
inverted-height key built for `h2` is strictly byte-smaller than the key
built for `h1`, for the flat key with the same type and for the per-index
key with the same type and index, so ascending byte-order iteration visits
strictly decreasing mined heights; and the decoding used by
`GetMinedCommitmentsUntilBlock` (`UINT32_MAX` minus the big-endian-decoded
stored value) recovers each original mined height exactly. -/
theorem c6_inverted_height_key_order (t qi h1 h2 : Nat) (h12 : h1 < h2)
    (hlt : h2 < 4294967296) :
    invKeyLtB (buildInversedHeightKey t h2) (buildInversedHeightKey t h1) = true
    ∧ invKeyIndexedLtB (buildInversedHeightKeyIndexed t h2 qi)
        (buildInversedHeightKeyIndexed t h1 qi) = true
    ∧ decodeInvHeightKey (buildInversedHeightKey t h1) = h1
    ∧ decodeInvHeightKey (buildInversedHeightKey t h2) = h2 := by
  have hU : UINT32_MAX = 4294967295 := rfl
  have hb : bytesLtB (htobe32 (UINT32_MAX - h2)) (htobe32 (UINT32_MAX - h1)) = true := by
    rw [bytesLtB_htobe32 (UINT32_MAX - h2) (UINT32_MAX - h1) (by omega) (by omega)]
    omega
  refine ⟨?_, ?_, ?_, ?_⟩
  · simp [invKeyLtB, buildInversedHeightKey, hb]
  · simp [invKeyIndexedLtB, buildInversedHeightKeyIndexed, hb]
  · rw [decodeInvHeightKey, buildInversedHeightKey]
    simp only
    rw [be32toh_htobe32 (UINT32_MAX - h1) (by omega)]
    omega
  · rw [decodeInvHeightKey, buildInversedHeightKey]
    simp only
    rw [be32toh_htobe32 (UINT32_MAX - h2) (by omega)]
    omega

/-- Witness for C6 at type 0, index 1, heights 3 < 5. -/
theorem c6_inverted_height_key_order_witness :
    invKeyLtB (buildInversedHeightKey 0 5) (buildInversedHeightKey 0 3) = true
    ∧ invKeyIndexedLtB (buildInversedHeightKeyIndexed 0 5 1)
        (buildInversedHeightKeyIndexed 0 3 1) = true
    ∧ decodeInvHeightKey (buildInversedHeightKey 0 3) = 3
    ∧ decodeInvHeightKey (buildInversedHeightKey 0 5) = 5 :=
  c6_inverted_height_key_order 0 1 3 5 (by decide) (by decide)

end llmq

namespace llmq

/- ### AddMineableCommitment case lemmas -/

theorem addMineableCommitment_new (env : ChainEnv) (s : ProcState)
    (fqc : CFinalCommitment)
    (h : s.minableByQuorum fqc.llmqType fqc.quorumHash = none)
    (h2 : s.minableCommitments (env.serHash fqc) = none) :
    addMineableCommitment env s fqc =
      (true, { s with
        minableByQuorum := set2 s.minableByQuorum fqc.llmqType fqc.quorumHash (some (env.serHash fqc)),
        minableCommitments := set1 s.minableCommitments (env.serHash fqc) (some fqc) }) := by
  unfold addMineableCommitment
  simp only [h]
  simp [emplace1, h2]

theorem addMineableCommitment_better (env : ChainEnv) (s : ProcState)
    (fqc oldFqc : CFinalCommitment) (oldHash : Nat)
    (h : s.minableByQuorum fqc.llmqType fqc.quorumHash = some oldHash)
    (h2 : s.minableCommitments oldHash = some oldFqc)
    (hlt : oldFqc.countSigners < fqc.countSigners) :
    addMineableCommitment env s fqc =
      (true, { s with
        minableByQuorum := set2 s.minableByQuorum fqc.llmqType fqc.quorumHash (some (env.serHash fqc)),
        minableCommitments := set1 s.minableCommitments (env.serHash fqc) (some fqc) }) := by
  unfold addMineableCommitment
  simp only [h, h2, if_pos hlt]
  have he : emplace1 (set1 s.minableCommitments (env.serHash fqc) none)
      (env.serHash fqc) fqc =
      set1 (set1 s.minableCommitments (env.serHash fqc) none)
        (env.serHash fqc) (some fqc) := by
    unfold emplace1
    rw [set1_self]
  rw [he, set1_set1]

theorem addMineableCommitment_worse (env : ChainEnv) (s : ProcState)
    (fqc oldFqc : CFinalCommitment) (oldHash : Nat)
    (h : s.minableByQuorum fqc.llmqType fqc.quorumHash = some oldHash)
    (h2 : s.minableCommitments oldHash = some oldFqc)
    (hge : ¬ oldFqc.countSigners < fqc.countSigners) :
    addMineableCommitment env s fqc = (false, s) := by
  unfold addMineableCommitment
  simp only [h, h2, if_neg hge]

/-- `AddMineableCommitment` touches only the two mineable-pool maps. -/
theorem addMineableCommitment_frame (env : ChainEnv) (s : ProcState)
    (fqc : CFinalCommitment) :
    (addMineableCommitment env s fqc).2.mined = s.mined
    ∧ (addMineableCommitment env s fqc).2.invFlat = s.invFlat
    ∧ (addMineableCommitment env s fqc).2.invIndexed = s.invIndexed
    ∧ (addMineableCommitment env s fqc).2.bestBlock = s.bestBlock
    ∧ (addMineableCommitment env s fqc).2.hasMinedCommitmentCache = s.hasMinedCommitmentCache := by
  unfold addMineableCommitment
  rcases h : s.minableByQuorum fqc.llmqType fqc.quorumHash with _ | oldHash
  · simp [h]
  · rcases h2 : s.minableCommitments oldHash with _ | oldFqc
    · simp [h, h2]
    · by_cases hlt : oldFqc.countSigners < fqc.countSigners
      · simp [h, h2, if_pos hlt]
      · simp [h, h2, if_neg hlt]

/-- C7: for two commitments A, B for the same (type, committeeHash) slot
(with distinct serialize-hashes, a slot not yet pooled, and fresh hashes),
admitting A and then B leaves the slot's best candidate at B exactly when
B's signer count strictly exceeds A's; a first-seen or strictly-better
commitment signals relay, while a not-better B is dropped silently with the
pool unchanged and A still the best candidate. -/
theorem c7_pool_admission (env : ChainEnv) (s : ProcState)
    (A B : CFinalCommitment)
    (hBt : B.llmqType = A.llmqType) (hBq : B.quorumHash = A.quorumHash)
    (hslot : s.minableByQuorum A.llmqType A.quorumHash = none)
    (hA : s.minableCommitments (env.serHash A) = none)
    (hB : s.minableCommitments (env.serHash B) = none)
    (hne : env.serHash A ≠ env.serHash B) :
    (addMineableCommitment env s A).1 = true
    ∧ (bestFor (addMineableCommitment env (addMineableCommitment env s A).2 B).2
        A.llmqType A.quorumHash = some B ↔ A.countSigners < B.countSigners)
    ∧ (A.countSigners < B.countSigners →
        (addMineableCommitment env (addMineableCommitment env s A).2 B).1 = true)
    ∧ (¬ A.countSigners < B.countSigners →
        (addMineableCommitment env (addMineableCommitment env s A).2 B).1 = false
        ∧ (addMineableCommitment env (addMineableCommitment env s A).2 B).2
            = (addMineableCommitment env s A).2
        ∧ bestFor (addMineableCommitment env (addMineableCommitment env s A).2 B).2
            A.llmqType A.quorumHash = some A) := by
  have e1 := addMineableCommitment_new env s A hslot hA
  rw [e1]
  set s1 : ProcState := { s with
    minableByQuorum := set2 s.minableByQuorum A.llmqType A.quorumHash (some (env.serHash A)),
    minableCommitments := set1 s.minableCommitments (env.serHash A) (some A) } with hs1
  have hq1 : s1.minableByQuorum B.llmqType B.quorumHash = some (env.serHash A) := by
    rw [hs1, hBt, hBq]
    exact set2_self _ _ _ _
  have hm1 : s1.minableCommitments (env.serHash A) = some A := by
    rw [hs1]
    exact set1_self _ _ _
  refine ⟨rfl, ?_, ?_, ?_⟩
  · constructor
    · intro hbest
      by_contra hnlt
      have e2 := addMineableCommitment_worse env s1 B A (env.serHash A) hq1 hm1 hnlt
      rw [e2] at hbest
      rw [bestFor, hs1] at hbest
      rw [show ({ s with
        minableByQuorum := set2 s.minableByQuorum A.llmqType A.quorumHash (some (env.serHash A)),
        minableCommitments := set1 s.minableCommitments (env.serHash A) (some A) } : ProcState).minableByQuorum A.llmqType A.quorumHash = some (env.serHash A) from set2_self _ _ _ _] at hbest
      have : set1 s.minableCommitments (env.serHash A) (some A) (env.serHash A) = some B := hbest
      rw [set1_self] at this
      have hAB : A = B := by injection this
      exact hne (by rw [hAB])
    · intro hlt
      have e2 := addMineableCommitment_better env s1 B A (env.serHash A) hq1 hm1 hlt
      rw [e2, bestFor]
      rw [show ({ s1 with
        minableByQuorum := set2 s1.minableByQuorum B.llmqType B.quorumHash (some (env.serHash B)),
        minableCommitments := set1 s1.minableCommitments (env.serHash B) (some B) } : ProcState).minableByQuorum A.llmqType A.quorumHash = some (env.serHash B) from by
          rw [← hBt, ← hBq]
          exact set2_self _ _ _ _]
      exact set1_self _ _ _
  · intro hlt
    rw [addMineableCommitment_better env s1 B A (env.serHash A) hq1 hm1 hlt]
  · intro hnlt
    rw [addMineableCommitment_worse env s1 B A (env.serHash A) hq1 hm1 hnlt]
    refine ⟨rfl, rfl, ?_⟩
    rw [bestFor]
    rw [show s1.minableByQuorum A.llmqType A.quorumHash = some (env.serHash A) from by
      rw [hs1]
      exact set2_self _ _ _ _]
    exact hm1

end llmq

namespace llmq

/-- Witness for C7: admitting `exA` then `exB` (signer counts 1 < 2) on the
empty pool. -/
theorem c7_pool_admission_witness :
    (addMineableCommitment exEnv emptyState exA).1 = true
    ∧ (bestFor (addMineableCommitment exEnv (addMineableCommitment exEnv emptyState exA).2 exB).2
        exA.llmqType exA.quorumHash = some exB ↔ exA.countSigners < exB.countSigners)
    ∧ (exA.countSigners < exB.countSigners →
        (addMineableCommitment exEnv (addMineableCommitment exEnv emptyState exA).2 exB).1 = true)
    ∧ (¬ exA.countSigners < exB.countSigners →
        (addMineableCommitment exEnv (addMineableCommitment exEnv emptyState exA).2 exB).1 = false
        ∧ (addMineableCommitment exEnv (addMineableCommitment exEnv emptyState exA).2 exB).2
            = (addMineableCommitment exEnv emptyState exA).2
        ∧ bestFor (addMineableCommitment exEnv (addMineableCommitment exEnv emptyState exA).2 exB).2
            exA.llmqType exA.quorumHash = some exA) :=
  c7_pool_admission exEnv emptyState exA exB rfl rfl rfl rfl rfl (by decide)

/-- C10: `GetMineableCommitments` never returns an empty list: its result is
either `none` — in particular whenever the required commitment count is 0 —
or a non-empty vector of commitments. -/
theorem c10_mineable_commitments_never_empty (env : ChainEnv) (s : ProcState)
    (p : LLMQParams) (nHeight : Nat) :
    ((getMineableCommitments env s p nHeight).1 = none
      ∨ ∃ l, (getMineableCommitments env s p nHeight).1 = some l ∧ l ≠ [])
    ∧ ((getNumCommitmentsRequired env s p nHeight).1 = 0 →
      (getMineableCommitments env s p nHeight).1 = none) := by
  constructor
  · unfold getMineableCommitments
    dsimp only
    repeat' split
    all_goals
      first
      | exact Or.inl rfl
      | (rename_i hemp
         refine Or.inr ⟨_, rfl, fun hnil => hemp ?_⟩
         rw [hnil]
         rfl)
  · intro h0
    unfold getMineableCommitments
    dsimp only
    rw [if_pos (by rw [h0]; rfl)]

end llmq

namespace llmq

/-- C4 (amended): for every block whose height is below DIP0003 activation,
`ProcessBlock` takes the trivial pass-through path — it writes the
best-block marker and accepts without any commitment processing — even when
the block carries quorum-commitment payloads; the premature-commitment
rejection lives in `GetCommitmentsFromBlock` (which `ProcessBlock` never
reaches pre-activation): a successful pre-activation extraction can only
return the empty list. -/
theorem c4_preactivation_passthrough (env : ChainEnv) (s : ProcState)
    (blk : Block) (nHeight : Nat) (fJustCheck fBLSChecks : Bool)
    (h : nHeight < env.dip0003Height) :
    processBlock env s blk nHeight fJustCheck fBLSChecks =
      .ok { s with bestBlock := some blk.hash }
    ∧ (∀ ret, getCommitmentsFromBlock env blk nHeight = .ok ret → ret = []) := by
  constructor
  · unfold processBlock
    rw [if_pos h]
  · intro ret hret
    unfold getCommitmentsFromBlock at hret
    rcases hx : extractLoop env nHeight blk.txs [] with e | r
    · rw [hx] at hret
      cases hret
    · rw [hx] at hret
      dsimp only at hret
      by_cases hc : (decide (nHeight < env.dip0003Height) && !r.isEmpty) = true
      · rw [if_pos hc] at hret
        cases hret
      · rw [if_neg hc] at hret
        injection hret with hret'
        subst hret'
        have : r.isEmpty = true := by
          rcases Bool.and_eq_false_iff.mp (Bool.eq_false_iff.mpr hc) with h1 | h2
          · exact absurd h (by simpa using h1)
          · simpa using h2
        simpa [List.isEmpty_iff] using this

/-- Witness for C4's amended theorem at height 0 with activation height 100. -/
theorem c4_preactivation_passthrough_witness :
    processBlock exEnvPre emptyState exBlock 0 false false =
      .ok { emptyState with bestBlock := some exBlock.hash }
    ∧ (∀ ret, getCommitmentsFromBlock exEnvPre exBlock 0 = .ok ret → ret = []) :=
  c4_preactivation_passthrough exEnvPre emptyState exBlock 0 false false (by decide)

/-- C4 counterexample: at height 0 — below `exEnvPre`'s activation height
100 — a block containing a commitment payload is *accepted* by
`ProcessBlock` (trivial pass-through), where the claim says it must be
rejected. -/
theorem c4_preactivation_counterexample :
    (0 : Nat) < exEnvPre.dip0003Height
    ∧ exBlock.txs = [BlockTx.qcTx (some exA)]
    ∧ processBlock exEnvPre emptyState exBlock 0 false false =
        .ok { emptyState with bestBlock := some exBlock.hash } :=
  ⟨by decide, rfl, rfl⟩

/- ### HasMinedCommitment lemmas -/

theorem hasMinedCommitment_fst (s : ProcState) (t qh : Nat)
    (hcoh : coherent s) :
    (hasMinedCommitment s t qh).1 = (s.mined t qh).isSome := by
  rcases hc : s.hasMinedCommitmentCache t qh with _ | b <;>
    simp only [hasMinedCommitment, hc]
  exact hcoh t qh b hc

theorem hasMinedCommitment_frame (s : ProcState) (t qh : Nat) :
    (hasMinedCommitment s t qh).2.mined = s.mined
    ∧ (hasMinedCommitment s t qh).2.invFlat = s.invFlat
    ∧ (hasMinedCommitment s t qh).2.invIndexed = s.invIndexed
    ∧ (hasMinedCommitment s t qh).2.bestBlock = s.bestBlock
    ∧ (hasMinedCommitment s t qh).2.minableByQuorum = s.minableByQuorum
    ∧ (hasMinedCommitment s t qh).2.minableCommitments = s.minableCommitments := by
  rcases hc : s.hasMinedCommitmentCache t qh with _ | b <;>
    simp [hasMinedCommitment, hc]

theorem hasMinedCommitment_cache_mono (s : ProcState) (t qh a b : Nat)
    (v : Bool) (h : s.hasMinedCommitmentCache a b = some v) :
    (hasMinedCommitment s t qh).2.hasMinedCommitmentCache a b = some v := by
  rcases hc : s.hasMinedCommitmentCache t qh with _ | w <;>
    simp only [hasMinedCommitment, hc]
  · by_cases hab : a = t ∧ b = qh
    · obtain ⟨rfl, rfl⟩ := hab
      rw [h] at hc
      cases hc
    · rw [set2_other _ _ _ _ _ _ hab]
      exact h
  · exact h

theorem hasMinedCommitment_coherent (s : ProcState) (t qh : Nat)
    (hcoh : coherent s) : coherent (hasMinedCommitment s t qh).2 := by
  rcases hc : s.hasMinedCommitmentCache t qh with _ | b <;>
    simp only [hasMinedCommitment, hc]
  · intro a b' v hv
    dsimp only at hv ⊢
    by_cases hab : a = t ∧ b' = qh
    · obtain ⟨rfl, rfl⟩ := hab
      rw [set2_self] at hv
      injection hv with hv'
      exact hv'.symm
    · rw [set2_other _ _ _ _ _ _ hab] at hv
      exact hcoh a b' v hv
  · exact hcoh

end llmq

namespace llmq

/-- Case analysis of a successful `ProcessCommitment`: either the commitment
was null and the state is untouched, or `fJustCheck` stopped after the
existence-cache read, or (`fJustCheck = false`) the primary record and
exactly one reverse-index entry were written, the existence-cache entry
erased and the mineable candidate evicted. -/
theorem processCommitment_ok_cases (env : ChainEnv) (s : ProcState)
    (nHeight blockHash : Nat) (qc : CFinalCommitment)
    (fJustCheck fBLSChecks : Bool) (s' : ProcState)
    (hps : processCommitment env s nHeight blockHash qc fJustCheck fBLSChecks = .ok s') :
    ∃ params, env.llmqParams qc.llmqType = some params ∧
      ((qc.isNull = true ∧ s' = s)
      ∨ (qc.isNull = false ∧ fJustCheck = true
          ∧ s' = (hasMinedCommitment s params.type qc.quorumHash).2)
      ∨ (qc.isNull = false ∧ fJustCheck = false
          ∧ s'.mined = set2 s.mined params.type qc.quorumHash (some (qc, blockHash))
          ∧ s'.bestBlock = s.bestBlock
          ∧ s'.minableByQuorum = set2 s.minableByQuorum params.type qc.quorumHash none
          ∧ s'.minableCommitments = set1 s.minableCommitments (env.serHash qc) none
          ∧ s'.hasMinedCommitmentCache =
              set2 (hasMinedCommitment s params.type qc.quorumHash).2.hasMinedCommitmentCache
                qc.llmqType qc.quorumHash none
          ∧ ((env.rotation params.type ((env.lookupBlockHeight qc.quorumHash).getD 0) = true
              ∧ s'.invIndexed = set3 s.invIndexed params.type qc.quorumIndex nHeight
                  (some ((env.lookupBlockHeight qc.quorumHash).getD 0))
              ∧ s'.invFlat = s.invFlat)
            ∨ (env.rotation params.type ((env.lookupBlockHeight qc.quorumHash).getD 0) = false
              ∧ s'.invFlat = set2 s.invFlat params.type nHeight
                  (some ((env.lookupBlockHeight qc.quorumHash).getD 0))
              ∧ s'.invIndexed = s.invIndexed)))) := by
  rcases hp : env.llmqParams qc.llmqType with _ | params
  · rw [processCommitment, hp] at hps
    cases hps
  · refine ⟨params, rfl, ?_⟩
    rw [processCommitment, hp] at hps
    dsimp only at hps
    by_cases hz : ((if env.chainHeight.isNone then qc.quorumHash
        else getQuorumBlockHash env params nHeight qc.quorumIndex) == 0) = true
    · rw [if_pos hz] at hps
      cases hps
    · rw [if_neg hz] at hps
      by_cases hne : ((if env.chainHeight.isNone then qc.quorumHash
          else getQuorumBlockHash env params nHeight qc.quorumIndex) != qc.quorumHash) = true
      · rw [if_pos hne] at hps
        cases hps
      · rw [if_neg hne] at hps
        have hQ : (if env.chainHeight.isNone then qc.quorumHash
            else getQuorumBlockHash env params nHeight qc.quorumIndex) = qc.quorumHash := by
          simpa using hne
        rw [hQ] at hps
        by_cases hnull : qc.isNull = true
        · rw [if_pos hnull] at hps
          by_cases hvn : (!env.verifyNull qc) = true
          · rw [if_pos hvn] at hps
            cases hps
          · rw [if_neg hvn] at hps
            injection hps with h'
            exact Or.inl ⟨hnull, h'.symm⟩
        · rw [if_neg hnull] at hps
          have hnn : qc.isNull = false := by
            simpa using hnull
          by_cases hdup : (hasMinedCommitment s params.type qc.quorumHash).1 = true
          · rw [if_pos hdup] at hps
            cases hps
          · rw [if_neg hdup] at hps
            by_cases hmine : (!isMiningPhase params nHeight) = true
            · rw [if_pos hmine] at hps
              cases hps
            · rw [if_neg hmine] at hps
              by_cases hver : (!env.verify qc fBLSChecks) = true
              · rw [if_pos hver] at hps
                cases hps
              · rw [if_neg hver] at hps
                by_cases hjc : fJustCheck = true
                · rw [if_pos hjc] at hps
                  injection hps with h'
                  exact Or.inr (Or.inl ⟨hnn, hjc, h'.symm⟩)
                · rw [if_neg hjc] at hps
                  have hjcf : fJustCheck = false := by
                    simpa using hjc
                  injection hps with h'
                  subst h'
                  obtain ⟨hm, hf, hi, hb, hq, hmc⟩ :=
                    hasMinedCommitment_frame s params.type qc.quorumHash
                  refine Or.inr (Or.inr ⟨hnn, hjcf, ?_, ?_, ?_, ?_, ?_, ?_⟩)
                  · rcases hrot : env.rotation params.type
                        ((env.lookupBlockHeight qc.quorumHash).getD 0) with _ | _ <;>
                      simp [hrot, hm]
                  · rcases hrot : env.rotation params.type
                        ((env.lookupBlockHeight qc.quorumHash).getD 0) with _ | _ <;>
                      simp [hrot, hb]
                  · rcases hrot : env.rotation params.type
                        ((env.lookupBlockHeight qc.quorumHash).getD 0) with _ | _ <;>
                      simp [hrot, hq]
                  · rcases hrot : env.rotation params.type
                        ((env.lookupBlockHeight qc.quorumHash).getD 0) with _ | _ <;>
                      simp [hrot, hmc]
                  · rcases hrot : env.rotation params.type
                        ((env.lookupBlockHeight qc.quorumHash).getD 0) with _ | _ <;>
                      simp [hrot]
                  · rcases hrot : env.rotation params.type
                        ((env.lookupBlockHeight qc.quorumHash).getD 0) with _ | _
                    · exact Or.inr ⟨rfl, by simp [hrot, hf], by simp [hrot, hi]⟩
                    · exact Or.inl ⟨rfl, by simp [hrot, hi], by simp [hrot, hf]⟩

end llmq

namespace llmq

/-- C9: null commitments are never persisted.  A null commitment that passes
the null-proof check makes `ProcessCommitment` succeed with the state
untouched (no primary record, no reverse index, no cache or pool change);
`UndoBlock`'s per-commitment step skips null commitments entirely; and the
confirmed-commitment store, once free of null commitments, stays free of
them across any successful `ProcessCommitment`. -/
theorem c9_null_commitments_never_persisted (env : ChainEnv) (s : ProcState)
    (nHeight blockHash : Nat) (qc : CFinalCommitment) (p : LLMQParams)
    (fJustCheck fBLSChecks : Bool) :
    (env.llmqParams qc.llmqType = some p →
      (if env.chainHeight.isNone then qc.quorumHash
        else getQuorumBlockHash env p nHeight qc.quorumIndex) = qc.quorumHash →
      qc.quorumHash ≠ 0 →
      qc.isNull = true → env.verifyNull qc = true →
      processCommitment env s nHeight blockHash qc fJustCheck fBLSChecks = .ok s)
    ∧ (qc.isNull = true → undoOne env nHeight s qc = s)
    ∧ ((∀ t qh c b, s.mined t qh = some (c, b) → c.isNull = false) →
      ∀ s', processCommitment env s nHeight blockHash qc fJustCheck fBLSChecks = .ok s' →
      ∀ t qh c b, s'.mined t qh = some (c, b) → c.isNull = false) := by
  refine ⟨?_, ?_, ?_⟩
  · intro hp hQ hq0 hnull hvn
    rw [processCommitment, hp]
    dsimp only
    rw [hQ]
    rw [if_neg (by simpa using hq0)]
    rw [if_neg (by simp)]
    rw [if_pos hnull]
    rw [if_neg (by simp [hvn])]
  · intro hnull
    simp [undoOne, hnull]
  · intro hinv s' hps t qh c b hm
    obtain ⟨params, hp', hcases⟩ := processCommitment_ok_cases env s nHeight
      blockHash qc fJustCheck fBLSChecks s' hps
    rcases hcases with ⟨hnull, rfl⟩ | ⟨hnn, hjc, rfl⟩ |
        ⟨hnn, hjc, hmined, hrest⟩
    · exact hinv t qh c b hm
    · rw [(hasMinedCommitment_frame s params.type qc.quorumHash).1] at hm
      exact hinv t qh c b hm
    · rw [hmined] at hm
      by_cases hk : t = params.type ∧ qh = qc.quorumHash
      · obtain ⟨rfl, rfl⟩ := hk
        rw [set2_self] at hm
        injection hm with hm'
        rw [Prod.mk.injEq] at hm'
        rw [← hm'.1]
        exact hnn
      · rw [set2_other _ _ _ _ _ _ hk] at hm
        exact hinv t qh c b hm

/-- Witness for C9 on the concrete fixtures: the null commitment `exNull`
passes through `ProcessCommitment` without touching the empty state, is
skipped by the undo step, and the store invariant holds at a sample key. -/
theorem c9_null_commitments_never_persisted_witness :
    processCommitment exEnv emptyState 29 77 exNull false false = .ok emptyState
    ∧ undoOne exEnv 29 emptyState exNull = emptyState
    ∧ (emptyState.mined 0 0 = some (exA, 0) → exA.isNull = false) := by
  have H := c9_null_commitments_never_persisted exEnv emptyState 29 77 exNull
    exParams false false
  exact ⟨H.1 (by decide) (by decide) (by decide) (by decide) (by decide),
    H.2.1 (by decide),
    H.2.2 (fun _ _ _ _ h => nomatch h) emptyState
      (H.1 (by decide) (by decide) (by decide) (by decide) (by decide)) 0 0 exA 0⟩

end llmq

namespace llmq

theorem countType_append_one (acc : List CFinalCommitment)
    (qc : CFinalCommitment) (t : Nat) :
    countType (acc ++ [qc]) t =
      countType acc t + (if qc.llmqType = t then 1 else 0) := by
  simp [countType, List.countP_append, List.countP_cons]

/-- Along a successful extraction with rotation disabled for type `t`, the
number of type-`t` commitments can never exceed `max (initial count) 1`. -/
theorem extractLoop_count_le (env : ChainEnv) (hgt t : Nat) (p : LLMQParams)
    (hp : env.llmqParams t = some p) (hpt : p.type = t)
    (hrot : env.rotation t hgt = false) :
    ∀ (txs : List BlockTx) (acc ret : List CFinalCommitment),
      extractLoop env hgt txs acc = .ok ret →
      countType ret t ≤ max (countType acc t) 1 := by
  intro txs
  induction txs with
  | nil =>
    intro acc ret hx
    simp only [extractLoop] at hx
    injection hx with h'
    subst h'
    exact le_max_left _ _
  | cons tx rest ih =>
    intro acc ret hx
    rcases tx with _ | payload
    · simp only [extractLoop] at hx
      exact ih acc ret hx
    · rcases payload with _ | qc
      · simp only [extractLoop] at hx
        cases hx
      · simp only [extractLoop] at hx
        rcases hq : env.llmqParams qc.llmqType with _ | params
        · simp only [hq] at hx
          cases hx
        · simp only [hq] at hx
          by_cases hcond : (!env.rotation params.type hgt &&
              countType acc qc.llmqType != 0) = true
          · rw [if_pos hcond] at hx
            cases hx
          · rw [if_neg hcond] at hx
            have hb := ih (acc ++ [qc]) ret hx
            by_cases hqt : qc.llmqType = t
            · have hpp : params = p := by
                rw [hqt] at hq
                rw [hp] at hq
                injection hq with h'
                exact h'.symm
              have hacc : countType acc t = 0 := by
                by_contra hne
                apply hcond
                rw [hpp, hpt, hrot, hqt]
                simp only [Bool.not_false, Bool.true_and, bne_iff_ne, ne_eq]
                exact hne
              rw [countType_append_one, hacc, if_pos hqt] at hb
              calc countType ret t ≤ max (0 + 1) 1 := hb
                _ ≤ max (countType acc t) 1 := by omega
            · rw [countType_append_one, if_neg hqt, Nat.add_zero] at hb
              exact hb

/-- C8: during extraction, with rotation inactive for a type, a block holding
a second commitment of that type is rejected with `bad-qc-dup` (and any
successful extraction holds at most one commitment of the type); with
rotation active, the same two-commitment block is extracted in full. -/
theorem c8_duplicate_commitment_policy (env : ChainEnv) (blk : Block)
    (hgt t bh : Nat) (p : LLMQParams) (c1 c2 : CFinalCommitment)
    (hp : env.llmqParams t = some p) (hpt : p.type = t)
    (h1 : c1.llmqType = t) (h2 : c2.llmqType = t) :
    (env.rotation t hgt = false →
      ∀ ret, getCommitmentsFromBlock env blk hgt = .ok ret →
        countType ret t ≤ 1)
    ∧ (env.rotation t hgt = false →
        getCommitmentsFromBlock env
          { txs := [BlockTx.qcTx (some c1), BlockTx.qcTx (some c2)], hash := bh }
          hgt = .error "bad-qc-dup")
    ∧ (env.rotation t hgt = true → env.dip0003Height ≤ hgt →
        getCommitmentsFromBlock env
          { txs := [BlockTx.qcTx (some c1), BlockTx.qcTx (some c2)], hash := bh }
          hgt = .ok [c1, c2]) := by
  refine ⟨?_, ?_, ?_⟩
  · intro hrot ret hret
    unfold getCommitmentsFromBlock at hret
    rcases hx : extractLoop env hgt blk.txs [] with e | r
    · rw [hx] at hret
      cases hret
    · rw [hx] at hret
      dsimp only at hret
      have hle := extractLoop_count_le env hgt t p hp hpt hrot blk.txs [] r hx
      by_cases hc : (decide (hgt < env.dip0003Height) && !r.isEmpty) = true
      · rw [if_pos hc] at hret
        cases hret
      · rw [if_neg hc] at hret
        injection hret with h'
        subst h'
        simpa [countType] using hle
  · intro hrot
    simp only [getCommitmentsFromBlock, extractLoop, h1, h2, hp, hpt, hrot]
    simp [countType, h1, h2]
  · intro hrot hdip
    simp only [getCommitmentsFromBlock, extractLoop, h1, h2, hp, hpt, hrot]
    simp [countType, h1, h2]
    omega

/-- Witness for C8: under `exEnv` (rotation off) the single-commitment block
extracts with count 1 ≤ 1 and the duplicate block is rejected; under
`exEnvRot` (rotation on) the duplicate block extracts both commitments. -/
theorem c8_duplicate_commitment_policy_witness :
    countType [exA] 1 ≤ 1
    ∧ getCommitmentsFromBlock exEnv
        { txs := [BlockTx.qcTx (some exA), BlockTx.qcTx (some exB)], hash := 99 }
        29 = .error "bad-qc-dup"
    ∧ getCommitmentsFromBlock exEnvRot
        { txs := [BlockTx.qcTx (some exA), BlockTx.qcTx (some exB)], hash := 99 }
        29 = .ok [exA, exB] := by
  have H := c8_duplicate_commitment_policy exEnv exBlock 29 1 99 exParams exA exB
    (by decide) (by decide) rfl rfl
  have H' := c8_duplicate_commitment_policy exEnvRot exBlock 29 1 99 exParams exA exB
    (by decide) (by decide) rfl rfl
  exact ⟨H.1 rfl [exA] rfl, H.2.1 rfl, H'.2.2 rfl (by decide)⟩

end llmq

namespace llmq

/-- Specification of the counting loop of `GetNumCommitmentsRequired`: its
value is the count of sub-indexes with a non-null, not-yet-mined quorum
hash, judged against the (unchanged) primary records; the loop leaves every
state component except the existence cache untouched, only grows the cache,
and preserves coherence. -/
theorem gnr_foldl_spec (env : ChainEnv) (p : LLMQParams) (nHeight : Nat) :
    ∀ (l : List Nat) (c : Nat) (s : ProcState), coherent s →
    ((l.foldl (fun acc quorumIndex =>
        let quorumHash := getQuorumBlockHash env p nHeight quorumIndex
        if quorumHash != 0 then
          let r := hasMinedCommitment acc.2 p.type quorumHash
          if r.1 then (acc.1, r.2) else (acc.1 + 1, r.2)
        else acc) (c, s)).1 =
      c + l.countP (fun qi => getQuorumBlockHash env p nHeight qi != 0 &&
        !(s.mined p.type (getQuorumBlockHash env p nHeight qi)).isSome))
    ∧ ((l.foldl (fun acc quorumIndex =>
        let quorumHash := getQuorumBlockHash env p nHeight quorumIndex
        if quorumHash != 0 then
          let r := hasMinedCommitment acc.2 p.type quorumHash
          if r.1 then (acc.1, r.2) else (acc.1 + 1, r.2)
        else acc) (c, s)).2.mined = s.mined)
    ∧ ((l.foldl (fun acc quorumIndex =>
        let quorumHash := getQuorumBlockHash env p nHeight quorumIndex
        if quorumHash != 0 then
          let r := hasMinedCommitment acc.2 p.type quorumHash
          if r.1 then (acc.1, r.2) else (acc.1 + 1, r.2)
        else acc) (c, s)).2.invFlat = s.invFlat)
    ∧ ((l.foldl (fun acc quorumIndex =>
        let quorumHash := getQuorumBlockHash env p nHeight quorumIndex
        if quorumHash != 0 then
          let r := hasMinedCommitment acc.2 p.type quorumHash
          if r.1 then (acc.1, r.2) else (acc.1 + 1, r.2)
        else acc) (c, s)).2.invIndexed = s.invIndexed)
    ∧ ((l.foldl (fun acc quorumIndex =>
        let quorumHash := getQuorumBlockHash env p nHeight quorumIndex
        if quorumHash != 0 then
          let r := hasMinedCommitment acc.2 p.type quorumHash
          if r.1 then (acc.1, r.2) else (acc.1 + 1, r.2)
        else acc) (c, s)).2.bestBlock = s.bestBlock)
    ∧ ((l.foldl (fun acc quorumIndex =>
        let quorumHash := getQuorumBlockHash env p nHeight quorumIndex
        if quorumHash != 0 then
          let r := hasMinedCommitment acc.2 p.type quorumHash
          if r.1 then (acc.1, r.2) else (acc.1 + 1, r.2)
        else acc) (c, s)).2.minableByQuorum = s.minableByQuorum)
    ∧ ((l.foldl (fun acc quorumIndex =>
        let quorumHash := getQuorumBlockHash env p nHeight quorumIndex
        if quorumHash != 0 then
          let r := hasMinedCommitment acc.2 p.type quorumHash
          if r.1 then (acc.1, r.2) else (acc.1 + 1, r.2)
        else acc) (c, s)).2.minableCommitments = s.minableCommitments)
    ∧ (∀ a b v, s.hasMinedCommitmentCache a b = some v →
        (l.foldl (fun acc quorumIndex =>
          let quorumHash := getQuorumBlockHash env p nHeight quorumIndex
          if quorumHash != 0 then
            let r := hasMinedCommitment acc.2 p.type quorumHash
            if r.1 then (acc.1, r.2) else (acc.1 + 1, r.2)
          else acc) (c, s)).2.hasMinedCommitmentCache a b = some v)
    ∧ coherent (l.foldl (fun acc quorumIndex =>
        let quorumHash := getQuorumBlockHash env p nHeight quorumIndex
        if quorumHash != 0 then
          let r := hasMinedCommitment acc.2 p.type quorumHash
          if r.1 then (acc.1, r.2) else (acc.1 + 1, r.2)
        else acc) (c, s)).2 := by
  intro l
  induction l with
  | nil =>
    intro c s hcoh
    exact ⟨by simp, rfl, rfl, rfl, rfl, rfl, rfl, fun a b v h => h, hcoh⟩
  | cons qi l ih =>
    intro c s hcoh
    dsimp only [List.foldl]
    have hfst := hasMinedCommitment_fst s p.type
      (getQuorumBlockHash env p nHeight qi) hcoh
    obtain ⟨fm, ff, fi, fb, fq, fc⟩ := hasMinedCommitment_frame s p.type
      (getQuorumBlockHash env p nHeight qi)
    have hcoh' := hasMinedCommitment_coherent s p.type
      (getQuorumBlockHash env p nHeight qi) hcoh
    by_cases hq : (getQuorumBlockHash env p nHeight qi != 0) = true
    · rw [if_pos hq]
      by_cases hmined : (hasMinedCommitment s p.type
          (getQuorumBlockHash env p nHeight qi)).1 = true
      · rw [if_pos hmined]
        obtain ⟨ih1, ih2, ih3, ih4, ih5, ih6, ih7, ih8, ih9⟩ :=
          ih c (hasMinedCommitment s p.type
            (getQuorumBlockHash env p nHeight qi)).2 hcoh'
        rw [fm] at ih1 ih2
        refine ⟨?_, ih2, ff ▸ ih3, fi ▸ ih4, fb ▸ ih5, fq ▸ ih6, fc ▸ ih7,
          ?_, ih9⟩
        · rw [ih1, List.countP_cons]
          have hpred : (getQuorumBlockHash env p nHeight qi != 0 &&
              !(s.mined p.type (getQuorumBlockHash env p nHeight qi)).isSome) = false := by
            rw [hfst] at hmined
            simp [hmined]
          rw [hpred]
          simp
        · intro a b v hv
          exact ih8 a b v (hasMinedCommitment_cache_mono s p.type
            (getQuorumBlockHash env p nHeight qi) a b v hv)
      · rw [if_neg hmined]
        obtain ⟨ih1, ih2, ih3, ih4, ih5, ih6, ih7, ih8, ih9⟩ :=
          ih (c + 1) (hasMinedCommitment s p.type
            (getQuorumBlockHash env p nHeight qi)).2 hcoh'
        rw [fm] at ih1 ih2
        refine ⟨?_, ih2, ff ▸ ih3, fi ▸ ih4, fb ▸ ih5, fq ▸ ih6, fc ▸ ih7,
          ?_, ih9⟩
        · rw [ih1, List.countP_cons]
          have hpred : (getQuorumBlockHash env p nHeight qi != 0 &&
              !(s.mined p.type (getQuorumBlockHash env p nHeight qi)).isSome) = true := by
            rw [hfst] at hmined
            simp only [Bool.not_eq_true] at hmined
            simp [hq, hmined]
          rw [hpred, if_pos rfl]
          omega
        · intro a b v hv
          exact ih8 a b v (hasMinedCommitment_cache_mono s p.type
            (getQuorumBlockHash env p nHeight qi) a b v hv)
    · rw [if_neg hq]
      obtain ⟨ih1, ih2, ih3, ih4, ih5, ih6, ih7, ih8, ih9⟩ := ih c s hcoh
      refine ⟨?_, ih2, ih3, ih4, ih5, ih6, ih7, ih8, ih9⟩
      rw [ih1, List.countP_cons]
      have hpred : (getQuorumBlockHash env p nHeight qi != 0 &&
          !(s.mined p.type (getQuorumBlockHash env p nHeight qi)).isSome) = false := by
        simp only [Bool.not_eq_true] at hq
        simp [hq]
      rw [hpred]
      simp

end llmq

namespace llmq

/-- Packaged specification of `GetNumCommitmentsRequired` on a coherent
state: its value is the spec-side count, and the threaded state differs at
most by a grown existence cache, staying coherent. -/
theorem getNumCommitmentsRequired_spec (env : ChainEnv) (s : ProcState)
    (p : LLMQParams) (nHeight : Nat) (hcoh : coherent s) :
    (getNumCommitmentsRequired env s p nHeight).1 =
      requiredCommitmentCountSpec env s.mined p nHeight
    ∧ (getNumCommitmentsRequired env s p nHeight).2.mined = s.mined
    ∧ (getNumCommitmentsRequired env s p nHeight).2.invFlat = s.invFlat
    ∧ (getNumCommitmentsRequired env s p nHeight).2.invIndexed = s.invIndexed
    ∧ (getNumCommitmentsRequired env s p nHeight).2.bestBlock = s.bestBlock
    ∧ (getNumCommitmentsRequired env s p nHeight).2.minableByQuorum = s.minableByQuorum
    ∧ (getNumCommitmentsRequired env s p nHeight).2.minableCommitments = s.minableCommitments
    ∧ (∀ a b v, s.hasMinedCommitmentCache a b = some v →
        (getNumCommitmentsRequired env s p nHeight).2.hasMinedCommitmentCache a b = some v)
    ∧ coherent (getNumCommitmentsRequired env s p nHeight).2 := by
  unfold getNumCommitmentsRequired requiredCommitmentCountSpec
  by_cases hm : isMiningPhase p nHeight = true
  · rw [if_neg (by simp [hm]), if_pos hm]
    dsimp only
    obtain ⟨h1, h2, h3, h4, h5, h6, h7, h8, h9⟩ := gnr_foldl_spec env p nHeight
      (List.range (if env.rotation p.type (rotationRefHeight env nHeight) then
        p.signingActiveQuorumCount else 1)) 0 s hcoh
    exact ⟨by rw [h1]; exact Nat.zero_add _, h2, h3, h4, h5, h6, h7, h8, h9⟩
  · have hm' : isMiningPhase p nHeight = false := by simpa using hm
    rw [if_pos (by simp [hm']), if_neg (by simp [hm'])]
    exact ⟨rfl, rfl, rfl, rfl, rfl, rfl, rfl, fun a b v h => h, hcoh⟩

/-- C3: on a coherent state, `GetNumCommitmentsRequired(params, H)` equals
the spec's `RequiredCommitmentCount`: 0 when `H` is not in the mining phase,
and otherwise the number of sub-indexes (over `0 ..
signingActiveQuorumCount-1` with rotation, only index 0 without) whose
committee block hash is non-null and for which no confirmed commitment
exists in the store. -/
theorem c3_get_num_commitments_required (env : ChainEnv) (s : ProcState)
    (p : LLMQParams) (nHeight : Nat) (hcoh : coherent s) :
    (getNumCommitmentsRequired env s p nHeight).1 =
      requiredCommitmentCountSpec env s.mined p nHeight :=
  (getNumCommitmentsRequired_spec env s p nHeight hcoh).1

/-- Witness for C3 on the spec's running example: height 29 (inside the
mining window `[29, 34]`) and height 40 (outside it). -/
theorem c3_get_num_commitments_required_witness :
    (getNumCommitmentsRequired exEnv emptyState exParams 29).1 =
      requiredCommitmentCountSpec exEnv emptyState.mined exParams 29
    ∧ (getNumCommitmentsRequired exEnv emptyState exParams 40).1 =
      requiredCommitmentCountSpec exEnv emptyState.mined exParams 40 :=
  ⟨c3_get_num_commitments_required exEnv emptyState exParams 29
      (fun _ _ _ h => nomatch h),
   c3_get_num_commitments_required exEnv emptyState exParams 40
      (fun _ _ _ h => nomatch h)⟩

end llmq

namespace llmq

/-- A successful pass of the enabled-parameter count-check loop (with a
present chain tip) means every listed type's required count matched its
count in the block; the loop leaves everything but the existence cache
unchanged, only growing it, and preserves coherence. -/
theorem countCheckLoop_ok (env : ChainEnv) (qcs : List CFinalCommitment)
    (nHeight ch : Nat) (hch : env.chainHeight = some ch) :
    ∀ (ps : List LLMQParams) (s s' : ProcState), coherent s →
      countCheckLoop env qcs nHeight ps s = .ok s' →
      (∀ q ∈ ps, requiredCommitmentCountSpec env s.mined q nHeight = countType qcs q.type)
      ∧ s'.mined = s.mined
      ∧ s'.invFlat = s.invFlat
      ∧ s'.invIndexed = s.invIndexed
      ∧ s'.bestBlock = s.bestBlock
      ∧ s'.minableByQuorum = s.minableByQuorum
      ∧ s'.minableCommitments = s.minableCommitments
      ∧ (∀ a b v, s.hasMinedCommitmentCache a b = some v →
          s'.hasMinedCommitmentCache a b = some v)
      ∧ coherent s' := by
  intro ps
  induction ps with
  | nil =>
    intro s s' hcoh hc
    simp only [countCheckLoop] at hc
    injection hc with h'
    subst h'
    exact ⟨by simp, rfl, rfl, rfl, rfl, rfl, rfl, fun a b v h => h, hcoh⟩
  | cons q ps ih =>
    intro s s' hcoh hc
    simp only [countCheckLoop] at hc
    rw [hch] at hc
    rw [if_neg (by simp)] at hc
    obtain ⟨g1, g2, g3, g4, g5, g6, g7, g8, g9⟩ :=
      getNumCommitmentsRequired_spec env s q nHeight hcoh
    by_cases h1 : (getNumCommitmentsRequired env s q nHeight).1 < countType qcs q.type
    · rw [if_pos h1] at hc
      cases hc
    · rw [if_neg h1] at hc
      by_cases h2 : countType qcs q.type < (getNumCommitmentsRequired env s q nHeight).1
      · rw [if_pos h2] at hc
        cases hc
      · rw [if_neg h2] at hc
        have heq : requiredCommitmentCountSpec env s.mined q nHeight = countType qcs q.type := by
          rw [← g1]
          omega
        obtain ⟨i1, i2, i3, i4, i5, i6, i7, i8, i9⟩ :=
          ih (getNumCommitmentsRequired env s q nHeight).2 s' g9 hc
        rw [g2] at i1 i2
        refine ⟨?_, i2, i3.trans g3, i4.trans g4, i5.trans g5, i6.trans g6,
          i7.trans g7, ?_, i9⟩
        · intro q' hq'
          rcases List.mem_cons.mp hq' with rfl | hmem
          · exact heq
          · exact i1 q' hmem
        · intro a b v hv
          exact i8 a b v (g8 a b v hv)

/-- The count-check loop rejects at the first enabled type whose required
count mismatches the block: `bad-qc-not-allowed` on an over-count and
`bad-qc-missing` on an under-count. -/
theorem countCheckLoop_err (env : ChainEnv) (qcs : List CFinalCommitment)
    (nHeight ch : Nat) (hch : env.chainHeight = some ch) :
    ∀ (pre : List LLMQParams) (q : LLMQParams) (post : List LLMQParams)
      (s : ProcState), coherent s →
      (∀ q' ∈ pre, requiredCommitmentCountSpec env s.mined q' nHeight = countType qcs q'.type) →
      ((requiredCommitmentCountSpec env s.mined q nHeight < countType qcs q.type →
          countCheckLoop env qcs nHeight (pre ++ q :: post) s = .error "bad-qc-not-allowed")
      ∧ (countType qcs q.type < requiredCommitmentCountSpec env s.mined q nHeight →
          countCheckLoop env qcs nHeight (pre ++ q :: post) s = .error "bad-qc-missing")) := by
  intro pre
  induction pre with
  | nil =>
    intro q post s hcoh _
    obtain ⟨g1, _⟩ := getNumCommitmentsRequired_spec env s q nHeight hcoh
    constructor
    · intro hlt
      simp only [List.nil_append, countCheckLoop]
      rw [hch]
      rw [if_neg (by simp)]
      rw [if_pos (by rw [g1]; exact hlt)]
    · intro hlt
      simp only [List.nil_append, countCheckLoop]
      rw [hch]
      rw [if_neg (by simp)]
      rw [if_neg (by rw [g1]; omega)]
      rw [if_pos (by rw [g1]; exact hlt)]
  | cons q0 pre ih =>
    intro q post s hcoh hpre
    have hq0 : requiredCommitmentCountSpec env s.mined q0 nHeight = countType qcs q0.type :=
      hpre q0 (List.mem_cons_self q0 pre)
    obtain ⟨g1, g2, _, _, _, _, _, _, g9⟩ :=
      getNumCommitmentsRequired_spec env s q0 nHeight hcoh
    have hpre' : ∀ q' ∈ pre,
        requiredCommitmentCountSpec env
          (getNumCommitmentsRequired env s q0 nHeight).2.mined q' nHeight =
          countType qcs q'.type := by
      intro q' hq'
      rw [g2]
      exact hpre q' (List.mem_cons_of_mem q0 hq')
    obtain ⟨e1, e2⟩ := ih q post (getNumCommitmentsRequired env s q0 nHeight).2 g9 hpre'
    rw [g2] at e1 e2
    constructor
    · intro hlt
      simp only [List.cons_append, countCheckLoop]
      rw [hch]
      rw [if_neg (by simp)]
      rw [if_neg (by rw [g1, hq0]; omega)]
      rw [if_neg (by rw [g1, hq0]; omega)]
      exact e1 hlt
    · intro hlt
      simp only [List.cons_append, countCheckLoop]
      rw [hch]
      rw [if_neg (by simp)]
      rw [if_neg (by rw [g1, hq0]; omega)]
      rw [if_neg (by rw [g1, hq0]; omega)]
      exact e2 hlt

/-- C1: during `ProcessBlock` (post-activation, with a present chain tip),
for every committee type enabled as of the previous block the number of
commitments of that type extracted from the block must exactly equal the
required commitment count at the block's height: at the first enabled type
with more commitments than required the block is rejected with
`bad-qc-not-allowed`, at the first with fewer it is rejected with
`bad-qc-missing`, and a successful `ProcessBlock` implies equality for every
enabled type. -/
theorem c1_commitment_count_enforcement (env : ChainEnv) (s : ProcState)
    (blk : Block) (nHeight : Nat) (fJustCheck fBLSChecks : Bool)
    (qcs : List CFinalCommitment) (ch : Nat)
    (hdip : env.dip0003Height ≤ nHeight)
    (hch : env.chainHeight = some ch)
    (hx : getCommitmentsFromBlock env blk nHeight = .ok qcs)
    (hcoh : coherent s) :
    (∀ pre p post, env.enabledParams (nHeight - 1) = pre ++ p :: post →
      (∀ q ∈ pre, requiredCommitmentCountSpec env s.mined q nHeight = countType qcs q.type) →
      ((requiredCommitmentCountSpec env s.mined p nHeight < countType qcs p.type →
          processBlock env s blk nHeight fJustCheck fBLSChecks = .error "bad-qc-not-allowed")
       ∧ (countType qcs p.type < requiredCommitmentCountSpec env s.mined p nHeight →
          processBlock env s blk nHeight fJustCheck fBLSChecks = .error "bad-qc-missing")))
    ∧ (∀ s', processBlock env s blk nHeight fJustCheck fBLSChecks = .ok s' →
        ∀ q ∈ env.enabledParams (nHeight - 1),
          requiredCommitmentCountSpec env s.mined q nHeight = countType qcs q.type) := by
  have hpb : processBlock env s blk nHeight fJustCheck fBLSChecks =
      (match countCheckLoop env qcs nHeight (env.enabledParams (nHeight - 1)) s with
       | .error e => .error e
       | .ok s1 =>
         match applyCommitments env nHeight blk.hash fJustCheck fBLSChecks qcs s1 with
         | .error e => .error e
         | .ok s2 => .ok { s2 with bestBlock := some blk.hash }) := by
    rw [processBlock, if_neg (by omega), hx]
  constructor
  · intro pre p post henab hpre
    obtain ⟨e1, e2⟩ := countCheckLoop_err env qcs nHeight ch hch pre p post s hcoh hpre
    constructor
    · intro hlt
      rw [hpb, henab, e1 hlt]
    · intro hlt
      rw [hpb, henab, e2 hlt]
  · intro s' hok q hq
    rw [hpb] at hok
    rcases hc : countCheckLoop env qcs nHeight (env.enabledParams (nHeight - 1)) s with e | s1
    · rw [hc] at hok
      cases hok
    · exact (countCheckLoop_ok env qcs nHeight ch hch
        (env.enabledParams (nHeight - 1)) s s1 hcoh hc).1 q hq

/-- Witness for C1: under `exEnv` at height 29, an empty block is missing
the one required commitment for `exParams` and is rejected with
`bad-qc-missing`. -/
theorem c1_commitment_count_enforcement_witness :
    processBlock exEnv emptyState exEmptyBlock 29 false false = .error "bad-qc-missing" :=
  ((c1_commitment_count_enforcement exEnv emptyState exEmptyBlock 29 false false
      [] 29 (by decide) rfl rfl (fun _ _ _ h => nomatch h)).1
    [] exParams [] rfl (by simp)).2 (by decide)

end llmq

namespace llmq

/-- Frame part of the counting loop, with no coherence assumption: only the
existence cache can change, and only by gaining entries. -/
theorem gnr_foldl_frame (env : ChainEnv) (p : LLMQParams) (nHeight : Nat) :
    ∀ (l : List Nat) (c : Nat) (s : ProcState),
    ((l.foldl (fun acc quorumIndex =>
        let quorumHash := getQuorumBlockHash env p nHeight quorumIndex
        if quorumHash != 0 then
          let r := hasMinedCommitment acc.2 p.type quorumHash
          if r.1 then (acc.1, r.2) else (acc.1 + 1, r.2)
        else acc) (c, s)).2.mined = s.mined)
    ∧ ((l.foldl (fun acc quorumIndex =>
        let quorumHash := getQuorumBlockHash env p nHeight quorumIndex
        if quorumHash != 0 then
          let r := hasMinedCommitment acc.2 p.type quorumHash
          if r.1 then (acc.1, r.2) else (acc.1 + 1, r.2)
        else acc) (c, s)).2.invFlat = s.invFlat)
    ∧ ((l.foldl (fun acc quorumIndex =>
        let quorumHash := getQuorumBlockHash env p nHeight quorumIndex
        if quorumHash != 0 then
          let r := hasMinedCommitment acc.2 p.type quorumHash
          if r.1 then (acc.1, r.2) else (acc.1 + 1, r.2)
        else acc) (c, s)).2.invIndexed = s.invIndexed)
    ∧ ((l.foldl (fun acc quorumIndex =>
        let quorumHash := getQuorumBlockHash env p nHeight quorumIndex
        if quorumHash != 0 then
          let r := hasMinedCommitment acc.2 p.type quorumHash
          if r.1 then (acc.1, r.2) else (acc.1 + 1, r.2)
        else acc) (c, s)).2.bestBlock = s.bestBlock)
    ∧ ((l.foldl (fun acc quorumIndex =>
        let quorumHash := getQuorumBlockHash env p nHeight quorumIndex
        if quorumHash != 0 then
          let r := hasMinedCommitment acc.2 p.type quorumHash
          if r.1 then (acc.1, r.2) else (acc.1 + 1, r.2)
        else acc) (c, s)).2.minableByQuorum = s.minableByQuorum)
    ∧ ((l.foldl (fun acc quorumIndex =>
        let quorumHash := getQuorumBlockHash env p nHeight quorumIndex
        if quorumHash != 0 then
          let r := hasMinedCommitment acc.2 p.type quorumHash
          if r.1 then (acc.1, r.2) else (acc.1 + 1, r.2)
        else acc) (c, s)).2.minableCommitments = s.minableCommitments)
    ∧ (∀ a b v, s.hasMinedCommitmentCache a b = some v →
        (l.foldl (fun acc quorumIndex =>
          let quorumHash := getQuorumBlockHash env p nHeight quorumIndex
          if quorumHash != 0 then
            let r := hasMinedCommitment acc.2 p.type quorumHash
            if r.1 then (acc.1, r.2) else (acc.1 + 1, r.2)
          else acc) (c, s)).2.hasMinedCommitmentCache a b = some v) := by
  intro l
  induction l with
  | nil =>
    intro c s
    exact ⟨rfl, rfl, rfl, rfl, rfl, rfl, fun a b v h => h⟩
  | cons qi l ih =>
    intro c s
    dsimp only [List.foldl]
    obtain ⟨fm, ff, fi, fb, fq, fc⟩ := hasMinedCommitment_frame s p.type
      (getQuorumBlockHash env p nHeight qi)
    by_cases hq : (getQuorumBlockHash env p nHeight qi != 0) = true
    · rw [if_pos hq]
      by_cases hmined : (hasMinedCommitment s p.type
          (getQuorumBlockHash env p nHeight qi)).1 = true
      · rw [if_pos hmined]
        obtain ⟨i1, i2, i3, i4, i5, i6, i7⟩ :=
          ih c (hasMinedCommitment s p.type (getQuorumBlockHash env p nHeight qi)).2
        refine ⟨i1.trans fm, i2.trans ff, i3.trans fi, i4.trans fb,
          i5.trans fq, i6.trans fc, ?_⟩
        intro a b v hv
        exact i7 a b v (hasMinedCommitment_cache_mono s p.type
          (getQuorumBlockHash env p nHeight qi) a b v hv)
      · rw [if_neg hmined]
        obtain ⟨i1, i2, i3, i4, i5, i6, i7⟩ :=
          ih (c + 1) (hasMinedCommitment s p.type (getQuorumBlockHash env p nHeight qi)).2
        refine ⟨i1.trans fm, i2.trans ff, i3.trans fi, i4.trans fb,
          i5.trans fq, i6.trans fc, ?_⟩
        intro a b v hv
        exact i7 a b v (hasMinedCommitment_cache_mono s p.type
          (getQuorumBlockHash env p nHeight qi) a b v hv)
    · rw [if_neg hq]
      exact ih c s

/-- Frame part of `GetNumCommitmentsRequired`, with no coherence
assumption. -/
theorem getNumCommitmentsRequired_frame (env : ChainEnv) (s : ProcState)
    (p : LLMQParams) (nHeight : Nat) :
    (getNumCommitmentsRequired env s p nHeight).2.mined = s.mined
    ∧ (getNumCommitmentsRequired env s p nHeight).2.invFlat = s.invFlat
    ∧ (getNumCommitmentsRequired env s p nHeight).2.invIndexed = s.invIndexed
    ∧ (getNumCommitmentsRequired env s p nHeight).2.bestBlock = s.bestBlock
    ∧ (getNumCommitmentsRequired env s p nHeight).2.minableByQuorum = s.minableByQuorum
    ∧ (getNumCommitmentsRequired env s p nHeight).2.minableCommitments = s.minableCommitments
    ∧ (∀ a b v, s.hasMinedCommitmentCache a b = some v →
        (getNumCommitmentsRequired env s p nHeight).2.hasMinedCommitmentCache a b = some v) := by
  unfold getNumCommitmentsRequired
  by_cases hm : (!isMiningPhase p nHeight) = true
  · rw [if_pos hm]
    exact ⟨rfl, rfl, rfl, rfl, rfl, rfl, fun a b v h => h⟩
  · rw [if_neg hm]
    dsimp only
    exact gnr_foldl_frame env p nHeight
      (List.range (if env.rotation p.type (rotationRefHeight env nHeight) then
        p.signingActiveQuorumCount else 1)) 0 s

/-- Frame part of the count-check loop: on success only the existence cache
can have grown. -/
theorem countCheckLoop_frame (env : ChainEnv) (qcs : List CFinalCommitment)
    (nHeight : Nat) :
    ∀ (ps : List LLMQParams) (s s' : ProcState),
      countCheckLoop env qcs nHeight ps s = .ok s' →
      s'.mined = s.mined
      ∧ s'.invFlat = s.invFlat
      ∧ s'.invIndexed = s.invIndexed
      ∧ s'.bestBlock = s.bestBlock
      ∧ s'.minableByQuorum = s.minableByQuorum
      ∧ s'.minableCommitments = s.minableCommitments
      ∧ (∀ a b v, s.hasMinedCommitmentCache a b = some v →
          s'.hasMinedCommitmentCache a b = some v) := by
  intro ps
  induction ps with
  | nil =>
    intro s s' hc
    simp only [countCheckLoop] at hc
    injection hc with h'
    subst h'
    exact ⟨rfl, rfl, rfl, rfl, rfl, rfl, fun a b v h => h⟩
  | cons q ps ih =>
    intro s s' hc
    simp only [countCheckLoop] at hc
    by_cases hnone : env.chainHeight.isNone = true
    · rw [if_pos hnone] at hc
      injection hc with h'
      subst h'
      exact ⟨rfl, rfl, rfl, rfl, rfl, rfl, fun a b v h => h⟩
    · rw [if_neg hnone] at hc
      by_cases h1 : (getNumCommitmentsRequired env s q nHeight).1 < countType qcs q.type
      · rw [if_pos h1] at hc
        cases hc
      · rw [if_neg h1] at hc
        by_cases h2 : countType qcs q.type < (getNumCommitmentsRequired env s q nHeight).1
        · rw [if_pos h2] at hc
          cases hc
        · rw [if_neg h2] at hc
          obtain ⟨g1, g2, g3, g4, g5, g6, g7⟩ :=
            getNumCommitmentsRequired_frame env s q nHeight
          obtain ⟨i1, i2, i3, i4, i5, i6, i7⟩ :=
            ih (getNumCommitmentsRequired env s q nHeight).2 s' hc
          refine ⟨i1.trans g1, i2.trans g2, i3.trans g3, i4.trans g4,
            i5.trans g5, i6.trans g6, ?_⟩
          intro a b v hv
          exact i7 a b v (g7 a b v hv)

/-- With `fJustCheck = true`, a successful `ProcessCommitment` leaves
everything but the existence cache unchanged and only grows the cache. -/
theorem processCommitment_justCheck_frame (env : ChainEnv) (s : ProcState)
    (nHeight blockHash : Nat) (qc : CFinalCommitment) (fBLSChecks : Bool)
    (s' : ProcState)
    (hps : processCommitment env s nHeight blockHash qc true fBLSChecks = .ok s') :
    s'.mined = s.mined
    ∧ s'.invFlat = s.invFlat
    ∧ s'.invIndexed = s.invIndexed
    ∧ s'.bestBlock = s.bestBlock
    ∧ s'.minableByQuorum = s.minableByQuorum
    ∧ s'.minableCommitments = s.minableCommitments
    ∧ (∀ a b v, s.hasMinedCommitmentCache a b = some v →
        s'.hasMinedCommitmentCache a b = some v) := by
  obtain ⟨params, hp, hcases⟩ := processCommitment_ok_cases env s nHeight
    blockHash qc true fBLSChecks s' hps
  rcases hcases with ⟨_, rfl⟩ | ⟨_, _, rfl⟩ | ⟨_, hjc, _⟩
  · exact ⟨rfl, rfl, rfl, rfl, rfl, rfl, fun a b v h => h⟩
  · obtain ⟨fm, ff, fi, fb, fq, fc⟩ :=
      hasMinedCommitment_frame s params.type qc.quorumHash
    exact ⟨fm, ff, fi, fb, fq, fc,
      fun a b v h => hasMinedCommitment_cache_mono s params.type qc.quorumHash a b v h⟩
  · cases hjc

/-- With `fJustCheck = true`, the whole per-commitment application loop has
the same frame property. -/
theorem applyCommitments_justCheck_frame (env : ChainEnv)
    (nHeight blockHash : Nat) (fBLSChecks : Bool) :
    ∀ (qcs : List CFinalCommitment) (s s' : ProcState),
      applyCommitments env nHeight blockHash true fBLSChecks qcs s = .ok s' →
      s'.mined = s.mined
      ∧ s'.invFlat = s.invFlat
      ∧ s'.invIndexed = s.invIndexed
      ∧ s'.bestBlock = s.bestBlock
      ∧ s'.minableByQuorum = s.minableByQuorum
      ∧ s'.minableCommitments = s.minableCommitments
      ∧ (∀ a b v, s.hasMinedCommitmentCache a b = some v →
          s'.hasMinedCommitmentCache a b = some v) := by
  intro qcs
  induction qcs with
  | nil =>
    intro s s' hc
    simp only [applyCommitments] at hc
    injection hc with h'
    subst h'
    exact ⟨rfl, rfl, rfl, rfl, rfl, rfl, fun a b v h => h⟩
  | cons qc rest ih =>
    intro s s' hc
    simp only [applyCommitments] at hc
    rcases hpc : processCommitment env s nHeight blockHash qc true fBLSChecks with e | s1
    · rw [hpc] at hc
      cases hc
    · rw [hpc] at hc
      obtain ⟨p1, p2, p3, p4, p5, p6, p7⟩ :=
        processCommitment_justCheck_frame env s nHeight blockHash qc fBLSChecks s1 hpc
      obtain ⟨i1, i2, i3, i4, i5, i6, i7⟩ := ih s1 s' hc
      exact ⟨i1.trans p1, i2.trans p2, i3.trans p3, i4.trans p4, i5.trans p5,
        i6.trans p6, fun a b v h => i7 a b v (p7 a b v h)⟩

/-- C5 (amended): `ProcessBlock` with `fJustCheck = true` performs all
validation and persists none of the commitment state: the primary records,
both reverse indexes, and the mineable pool are unchanged, and no existence
cache entry is evicted (the cache may only gain lazily-populated entries).
The best-block marker, however, *is* written (see the counterexample). -/
theorem c5_justcheck_frame (env : ChainEnv) (s : ProcState) (blk : Block)
    (nHeight : Nat) (fBLSChecks : Bool) (s' : ProcState)
    (hok : processBlock env s blk nHeight true fBLSChecks = .ok s') :
    s'.mined = s.mined
    ∧ s'.invFlat = s.invFlat
    ∧ s'.invIndexed = s.invIndexed
    ∧ s'.minableByQuorum = s.minableByQuorum
    ∧ s'.minableCommitments = s.minableCommitments
    ∧ (∀ a b v, s.hasMinedCommitmentCache a b = some v →
        s'.hasMinedCommitmentCache a b = some v) := by
  rw [processBlock] at hok
  by_cases hdip : nHeight < env.dip0003Height
  · rw [if_pos hdip] at hok
    injection hok with h'
    subst h'
    exact ⟨rfl, rfl, rfl, rfl, rfl, fun a b v h => h⟩
  · rw [if_neg hdip] at hok
    rcases hxe : getCommitmentsFromBlock env blk nHeight with e | qcs
    · rw [hxe] at hok
      cases hok
    · rw [hxe] at hok
      dsimp only at hok
      rcases hc : countCheckLoop env qcs nHeight (env.enabledParams (nHeight - 1)) s with e | s1
      · rw [hc] at hok
        cases hok
      · rw [hc] at hok
        dsimp only at hok
        rcases ha : applyCommitments env nHeight blk.hash true fBLSChecks qcs s1 with e | s2
        · rw [ha] at hok
          cases hok
        · rw [ha] at hok
          injection hok with h'
          subst h'
          obtain ⟨c1, c2, c3, _, c5, c6, c7⟩ :=
            countCheckLoop_frame env qcs nHeight (env.enabledParams (nHeight - 1)) s s1 hc
          obtain ⟨a1, a2, a3, _, a5, a6, a7⟩ :=
            applyCommitments_justCheck_frame env nHeight blk.hash fBLSChecks qcs s1 s2 ha
          exact ⟨a1.trans c1, a2.trans c2, a3.trans c3, a5.trans c5,
            a6.trans c6, fun a b v h => a7 a b v (c7 a b v h)⟩

/-- Witness for C5's amended theorem: the concrete `fJustCheck = true` run of
`exBlock` at height 29. -/
theorem c5_justcheck_frame_witness :
    ({ emptyState with
        hasMinedCommitmentCache := set2 emptyState.hasMinedCommitmentCache 1 42 (some false),
        bestBlock := some 77 } : ProcState).mined = emptyState.mined
    ∧ ({ emptyState with
        hasMinedCommitmentCache := set2 emptyState.hasMinedCommitmentCache 1 42 (some false),
        bestBlock := some 77 } : ProcState).invFlat = emptyState.invFlat
    ∧ ({ emptyState with
        hasMinedCommitmentCache := set2 emptyState.hasMinedCommitmentCache 1 42 (some false),
        bestBlock := some 77 } : ProcState).invIndexed = emptyState.invIndexed
    ∧ ({ emptyState with
        hasMinedCommitmentCache := set2 emptyState.hasMinedCommitmentCache 1 42 (some false),
        bestBlock := some 77 } : ProcState).minableByQuorum = emptyState.minableByQuorum
    ∧ ({ emptyState with
        hasMinedCommitmentCache := set2 emptyState.hasMinedCommitmentCache 1 42 (some false),
        bestBlock := some 77 } : ProcState).minableCommitments = emptyState.minableCommitments
    ∧ (∀ a b v, emptyState.hasMinedCommitmentCache a b = some v →
        ({ emptyState with
          hasMinedCommitmentCache := set2 emptyState.hasMinedCommitmentCache 1 42 (some false),
          bestBlock := some 77 } : ProcState).hasMinedCommitmentCache a b = some v) :=
  c5_justcheck_frame exEnv emptyState exBlock 29 true _ rfl

/-- C5 counterexample: with `fJustCheck = true` the best-block marker is
still written — the concrete run maps an empty marker to the block's hash,
so `ProcessBlock` does not "persist nothing". -/
theorem c5_justcheck_counterexample :
    processBlock exEnv emptyState exBlock 29 true true =
      .ok { emptyState with
        hasMinedCommitmentCache := set2 emptyState.hasMinedCommitmentCache 1 42 (some false),
        bestBlock := some 77 }
    ∧ emptyState.bestBlock = none :=
  ⟨rfl, rfl⟩

end llmq

namespace llmq

/-- The count-check loop succeeds whenever every enabled type's spec-side
required count matches the block's count. -/
theorem countCheckLoop_ok_of (env : ChainEnv) (qcs : List CFinalCommitment)
    (nHeight ch : Nat) (hch : env.chainHeight = some ch) :
    ∀ (ps : List LLMQParams) (s : ProcState), coherent s →
      (∀ q ∈ ps, requiredCommitmentCountSpec env s.mined q nHeight = countType qcs q.type) →
      ∃ s1, countCheckLoop env qcs nHeight ps s = .ok s1 := by
  intro ps
  induction ps with
  | nil =>
    intro s _ _
    exact ⟨s, rfl⟩
  | cons q ps ih =>
    intro s hcoh hmatch
    obtain ⟨g1, g2, _, _, _, _, _, _, g9⟩ :=
      getNumCommitmentsRequired_spec env s q nHeight hcoh
    have hq : requiredCommitmentCountSpec env s.mined q nHeight = countType qcs q.type :=
      hmatch q (List.mem_cons_self q ps)
    obtain ⟨s1, hs1⟩ := ih (getNumCommitmentsRequired env s q nHeight).2 g9
      (by
        intro q' hq'
        rw [g2]
        exact hmatch q' (List.mem_cons_of_mem q hq'))
    refine ⟨s1, ?_⟩
    simp only [countCheckLoop]
    rw [hch]
    rw [if_neg (by simp)]
    rw [if_neg (by rw [g1, hq]; omega)]
    rw [if_neg (by rw [g1, hq]; omega)]
    exact hs1

/-- `ProcessCommitment` with `fJustCheck = false` succeeds (and therefore
commits) whenever the quorum hash resolves to the commitment's, the
commitment is non-null, the slot is unmined, the height is in the mining
phase, and verification passes. -/
theorem processCommitment_commits (env : ChainEnv) (s : ProcState)
    (qc : CFinalCommitment) (p : LLMQParams) (nHeight blockHash ch : Nat)
    (fBLSChecks : Bool)
    (hp : env.llmqParams qc.llmqType = some p)
    (hpt : p.type = qc.llmqType)
    (hch : env.chainHeight = some ch)
    (hQ : getQuorumBlockHash env p nHeight qc.quorumIndex = qc.quorumHash)
    (hq0 : qc.quorumHash ≠ 0)
    (hnn : qc.isNull = false)
    (hmine : isMiningPhase p nHeight = true)
    (hver : env.verify qc fBLSChecks = true)
    (hmined : s.mined qc.llmqType qc.quorumHash = none)
    (hcoh : coherent s) :
    ∃ s4, processCommitment env s nHeight blockHash qc false fBLSChecks = .ok s4 := by
  rw [processCommitment, hp]
  dsimp only
  have hQ2 : (if env.chainHeight.isNone then qc.quorumHash
      else getQuorumBlockHash env p nHeight qc.quorumIndex) = qc.quorumHash := by
    rw [hch]
    simpa using hQ
  rw [hQ2]
  rw [if_neg (by simpa using hq0)]
  rw [if_neg (by simp)]
  rw [if_neg (by simp [hnn])]
  have hhm : (hasMinedCommitment s p.type qc.quorumHash).1 = false := by
    rw [hasMinedCommitment_fst s p.type qc.quorumHash hcoh, hpt, hmined]
    rfl
  rw [if_neg (by simp [hhm])]
  rw [if_neg (by simp [hmine])]
  rw [if_neg (by simp [hver])]
  rw [if_neg (by simp)]
  exact ⟨_, rfl⟩

end llmq

namespace llmq

/-- On a cache miss, `HasMinedCommitment` populates exactly the queried
entry with the DB truth. -/
theorem hasMinedCommitment_cache_miss (s : ProcState) (t qh : Nat)
    (h : s.hasMinedCommitmentCache t qh = none) :
    (hasMinedCommitment s t qh).2.hasMinedCommitmentCache =
      set2 s.hasMinedCommitmentCache t qh (some ((s.mined t qh).isSome)) := by
  simp only [hasMinedCommitment, h]

/-- Undoing a committed non-null commitment erases exactly what the commit
wrote: the primary record, the reverse-index entry selected by the (agreed)
rotation flag, and the cache entry; the best-block marker is untouched and
only the mineable pool is re-admitted. -/
theorem undoOne_fields (env : ChainEnv) (s0 s4 : ProcState)
    (qc : CFinalCommitment) (p : LLMQParams) (nHeight blockHash : Nat)
    (hpt : p.type = qc.llmqType)
    (hnn : qc.isNull = false)
    (hrotagree : env.rotation qc.llmqType ((env.lookupBlockHeight qc.quorumHash).getD 0) =
      env.rotation qc.llmqType nHeight)
    (hmined0 : s0.mined qc.llmqType qc.quorumHash = none)
    (hflat0 : s0.invFlat qc.llmqType nHeight = none)
    (hidx0 : s0.invIndexed qc.llmqType qc.quorumIndex nHeight = none)
    (c3 : s4.mined = set2 s0.mined p.type qc.quorumHash (some (qc, blockHash)))
    (c8 : (env.rotation p.type ((env.lookupBlockHeight qc.quorumHash).getD 0) = true
            ∧ s4.invIndexed = set3 s0.invIndexed p.type qc.quorumIndex nHeight
                (some ((env.lookupBlockHeight qc.quorumHash).getD 0))
            ∧ s4.invFlat = s0.invFlat)
        ∨ (env.rotation p.type ((env.lookupBlockHeight qc.quorumHash).getD 0) = false
            ∧ s4.invFlat = set2 s0.invFlat p.type nHeight
                (some ((env.lookupBlockHeight qc.quorumHash).getD 0))
            ∧ s4.invIndexed = s0.invIndexed)) :
    (undoOne env nHeight s4 qc).mined = s0.mined
    ∧ (undoOne env nHeight s4 qc).invFlat = s0.invFlat
    ∧ (undoOne env nHeight s4 qc).invIndexed = s0.invIndexed
    ∧ (undoOne env nHeight s4 qc).bestBlock = s4.bestBlock
    ∧ (undoOne env nHeight s4 qc).hasMinedCommitmentCache =
        set2 s4.hasMinedCommitmentCache qc.llmqType qc.quorumHash none := by
  rw [hpt] at c3 c8
  rw [undoOne, if_neg (by simp [hnn])]
  dsimp only
  rcases hr : env.rotation qc.llmqType nHeight with _ | _
  · rcases c8 with ⟨crot, _, _⟩ | ⟨_, cf, ci⟩
    · rw [hrotagree] at crot
      rw [hr] at crot
      cases crot
    · rw [if_neg (show ¬(false = true) by simp)]
      obtain ⟨am, af, ai, ab, ac⟩ := addMineableCommitment_frame env _ qc
      refine ⟨am.trans ?_, af.trans ?_, ai.trans ?_, ab.trans ?_, ac.trans ?_⟩
      · dsimp only
        rw [c3, set2_set2]
        exact set2_cancel _ _ _ _ hmined0
      · dsimp only
        rw [cf, set2_set2]
        exact set2_cancel _ _ _ _ hflat0
      · dsimp only
        exact ci
      · rfl
      · rfl
  · rcases c8 with ⟨_, cidx, cf⟩ | ⟨crot, _, _⟩
    · rw [if_pos (rfl : true = true)]
      obtain ⟨am, af, ai, ab, ac⟩ := addMineableCommitment_frame env _ qc
      refine ⟨am.trans ?_, af.trans ?_, ai.trans ?_, ab.trans ?_, ac.trans ?_⟩
      · dsimp only
        rw [c3, set2_set2]
        exact set2_cancel _ _ _ _ hmined0
      · dsimp only
        exact cf
      · dsimp only
        rw [cidx, set3_set3]
        exact set3_cancel _ _ _ _ _ hidx0
      · rfl
      · rfl
    · rw [hrotagree] at crot
      rw [hr] at crot
      cases crot

end llmq

namespace llmq

/-- One full `ProcessBlock` pass over a block whose extraction yields exactly
one committable commitment: the count checks pass, the commitment commits,
and the resulting state is characterized field by field against the input
state. -/
theorem processBlock_single_commit (env : ChainEnv) (s : ProcState)
    (qc : CFinalCommitment) (p : LLMQParams) (blk : Block)
    (nHeight ch : Nat) (fBLSChecks : Bool)
    (hp : env.llmqParams qc.llmqType = some p)
    (hpt : p.type = qc.llmqType)
    (hch : env.chainHeight = some ch)
    (hQ : getQuorumBlockHash env p nHeight qc.quorumIndex = qc.quorumHash)
    (hq0 : qc.quorumHash ≠ 0)
    (hnn : qc.isNull = false)
    (hmine : isMiningPhase p nHeight = true)
    (hver : env.verify qc fBLSChecks = true)
    (hmined : s.mined qc.llmqType qc.quorumHash = none)
    (hcoh : coherent s)
    (hdip : env.dip0003Height ≤ nHeight)
    (hext : getCommitmentsFromBlock env blk nHeight = .ok [qc])
    (hreq : ∀ q ∈ env.enabledParams (nHeight - 1),
      requiredCommitmentCountSpec env s.mined q nHeight = countType [qc] q.type) :
    ∃ sc s4,
      countCheckLoop env [qc] nHeight (env.enabledParams (nHeight - 1)) s = .ok sc
      ∧ processCommitment env sc nHeight blk.hash qc false fBLSChecks = .ok s4
      ∧ processBlock env s blk nHeight false fBLSChecks =
          .ok { s4 with bestBlock := some blk.hash }
      ∧ sc.mined = s.mined ∧ sc.invFlat = s.invFlat ∧ sc.invIndexed = s.invIndexed
      ∧ coherent sc
      ∧ s4.mined = set2 s.mined p.type qc.quorumHash (some (qc, blk.hash))
      ∧ s4.hasMinedCommitmentCache =
          set2 (hasMinedCommitment sc p.type qc.quorumHash).2.hasMinedCommitmentCache
            qc.llmqType qc.quorumHash none
      ∧ ((env.rotation p.type ((env.lookupBlockHeight qc.quorumHash).getD 0) = true
          ∧ s4.invIndexed = set3 s.invIndexed p.type qc.quorumIndex nHeight
              (some ((env.lookupBlockHeight qc.quorumHash).getD 0))
          ∧ s4.invFlat = s.invFlat)
        ∨ (env.rotation p.type ((env.lookupBlockHeight qc.quorumHash).getD 0) = false
          ∧ s4.invFlat = set2 s.invFlat p.type nHeight
              (some ((env.lookupBlockHeight qc.quorumHash).getD 0))
          ∧ s4.invIndexed = s.invIndexed)) := by
  obtain ⟨sc, hccl⟩ := countCheckLoop_ok_of env [qc] nHeight ch hch
    (env.enabledParams (nHeight - 1)) s hcoh hreq
  obtain ⟨_, ccm, ccf, cci, _, _, _, _, cccoh⟩ := countCheckLoop_ok env [qc]
    nHeight ch hch (env.enabledParams (nHeight - 1)) s sc hcoh hccl
  obtain ⟨s4, hpc⟩ := processCommitment_commits env sc qc p nHeight blk.hash ch
    fBLSChecks hp hpt hch hQ hq0 hnn hmine hver (by rw [ccm]; exact hmined) cccoh
  obtain ⟨params', hp', hcases⟩ := processCommitment_ok_cases env sc nHeight
    blk.hash qc false fBLSChecks s4 hpc
  have hpp : params' = p := by
    rw [hp] at hp'
    injection hp' with h'
    exact h'.symm
  subst hpp
  rcases hcases with ⟨hnull, _⟩ | ⟨_, hjc, _⟩ | ⟨_, _, d3, _, _, _, d7, d8⟩
  · rw [hnn] at hnull
    cases hnull
  · cases hjc
  · have happ : applyCommitments env nHeight blk.hash false fBLSChecks [qc] sc = .ok s4 := by
      simp only [applyCommitments]
      rw [hpc]
    have hpb : processBlock env s blk nHeight false fBLSChecks =
        .ok { s4 with bestBlock := some blk.hash } := by
      rw [processBlock, if_neg (by omega), hext]
      dsimp only
      rw [hccl]
      dsimp only
      rw [happ]
    refine ⟨sc, s4, hccl, hpc, hpb, ccm, ccf, cci, cccoh, ?_, d7, ?_⟩
    · rw [d3, ccm]
    · rcases d8 with ⟨r, di, df⟩ | ⟨r, df, di⟩
      · exact Or.inl ⟨r, by rw [di, cci], by rw [df, ccf]⟩
      · exact Or.inr ⟨r, by rw [df, ccf], by rw [di, cci]⟩

end llmq

namespace llmq

/-- C2: committing a non-null commitment (`ProcessCommitment` with
`fJustCheck = false`, which writes the primary record and exactly one
reverse-index entry) followed by undoing it (`UndoBlock`'s per-commitment
step) for the same (type, committeeHash, minedHeight, index) restores the
exact pre-commit store state — primary records, both reverse indexes,
existence cache and best-block marker, hence both query paths and the
existence check; consequently, processing a single-commitment block,
undoing it, and reprocessing it yields a store state (primary records, both
reverse indexes, best-block marker) identical to the single processing
pass.  Rotation enablement is assumed to agree between the commitment's
quorum-base block and the mined block, as activations are aligned to cycle
boundaries. -/
theorem c2_commit_undo_exactness (env : ChainEnv) (s : ProcState)
    (qc : CFinalCommitment) (p : LLMQParams) (blk : Block)
    (nHeight blockHash ch prevHash : Nat) (fBLSChecks : Bool)
    (hp : env.llmqParams qc.llmqType = some p)
    (hpt : p.type = qc.llmqType)
    (hch : env.chainHeight = some ch)
    (hQ : getQuorumBlockHash env p nHeight qc.quorumIndex = qc.quorumHash)
    (hq0 : qc.quorumHash ≠ 0)
    (hnn : qc.isNull = false)
    (hmine : isMiningPhase p nHeight = true)
    (hver : env.verify qc fBLSChecks = true)
    (hrotagree : env.rotation qc.llmqType ((env.lookupBlockHeight qc.quorumHash).getD 0) =
      env.rotation qc.llmqType nHeight)
    (hmined : s.mined qc.llmqType qc.quorumHash = none)
    (hcache : s.hasMinedCommitmentCache qc.llmqType qc.quorumHash = none)
    (hflat : s.invFlat qc.llmqType nHeight = none)
    (hidx : s.invIndexed qc.llmqType qc.quorumIndex nHeight = none)
    (hcoh : coherent s)
    (hdip : env.dip0003Height ≤ nHeight)
    (hext : getCommitmentsFromBlock env blk nHeight = .ok [qc])
    (hreq : ∀ q ∈ env.enabledParams (nHeight - 1),
      requiredCommitmentCountSpec env s.mined q nHeight = countType [qc] q.type) :
    (∃ s4, processCommitment env s nHeight blockHash qc false fBLSChecks = .ok s4
      ∧ (undoOne env nHeight s4 qc).mined = s.mined
      ∧ (undoOne env nHeight s4 qc).invFlat = s.invFlat
      ∧ (undoOne env nHeight s4 qc).invIndexed = s.invIndexed
      ∧ (undoOne env nHeight s4 qc).hasMinedCommitmentCache = s.hasMinedCommitmentCache
      ∧ (undoOne env nHeight s4 qc).bestBlock = s.bestBlock)
    ∧ (∃ s1 s2 s3,
        processBlock env s blk nHeight false fBLSChecks = .ok s1
        ∧ undoBlock env s1 blk nHeight prevHash = .ok s2
        ∧ processBlock env s2 blk nHeight false fBLSChecks = .ok s3
        ∧ s3.mined = s1.mined ∧ s3.invFlat = s1.invFlat
        ∧ s3.invIndexed = s1.invIndexed ∧ s3.bestBlock = s1.bestBlock) := by
  constructor
  · -- Part A: commit at `s`, then undo, is the identity on the store.
    obtain ⟨s4a, hpcA⟩ := processCommitment_commits env s qc p nHeight blockHash
      ch fBLSChecks hp hpt hch hQ hq0 hnn hmine hver hmined hcoh
    obtain ⟨params', hp', hcases⟩ := processCommitment_ok_cases env s nHeight
      blockHash qc false fBLSChecks s4a hpcA
    have hpp : p = params' := by
      rw [hp] at hp'
      exact Option.some.inj hp'
    subst hpp
    rcases hcases with ⟨hnull, _⟩ | ⟨_, hjc, _⟩ | ⟨_, _, d3, d4, _, _, d7, d8⟩
    · rw [hnn] at hnull
      cases hnull
    · cases hjc
    · obtain ⟨u1, u2, u3, u4, u5⟩ := undoOne_fields env s s4a qc p nHeight
        blockHash hpt hnn hrotagree hmined hflat hidx d3 d8
      refine ⟨s4a, hpcA, u1, u2, u3, ?_, u4.trans d4⟩
      rw [u5, d7, set2_set2]
      rw [hasMinedCommitment_cache_miss s p.type qc.quorumHash (by rw [hpt]; exact hcache)]
      rw [show set2 s.hasMinedCommitmentCache p.type qc.quorumHash
          (some ((s.mined p.type qc.quorumHash).isSome)) =
        set2 s.hasMinedCommitmentCache qc.llmqType qc.quorumHash
          (some ((s.mined qc.llmqType qc.quorumHash).isSome)) from by rw [hpt]]
      rw [set2_set2]
      exact set2_cancel _ _ _ _ hcache
  · -- Part B: process, undo, reprocess equals a single pass on the store.
    obtain ⟨sc, s4, hccl, hpc, hpb1, ccm, ccf, cci, cccoh, e3, e7, e8⟩ :=
      processBlock_single_commit env s qc p blk nHeight ch fBLSChecks hp hpt
        hch hQ hq0 hnn hmine hver hmined hcoh hdip hext hreq
    have hub : undoBlock env { s4 with bestBlock := some blk.hash } blk nHeight prevHash =
        .ok { undoOne env nHeight { s4 with bestBlock := some blk.hash } qc with
          bestBlock := some prevHash } := by
      rw [undoBlock, hext]
      rfl
    obtain ⟨u1, u2, u3, _, u5⟩ := undoOne_fields env sc
      { s4 with bestBlock := some blk.hash } qc p nHeight blk.hash hpt hnn
      hrotagree (by rw [ccm]; exact hmined) (by rw [ccf]; exact hflat)
      (by rw [cci]; exact hidx)
      (by dsimp only; rw [e3, ccm])
      (by
        rcases e8 with ⟨r, di, df⟩ | ⟨r, df, di⟩
        · exact Or.inl ⟨r, by dsimp only; rw [di, cci], by dsimp only; rw [df, ccf]⟩
        · exact Or.inr ⟨r, by dsimp only; rw [df, ccf], by dsimp only; rw [di, cci]⟩)
    obtain ⟨u, hu⟩ : ∃ u, undoOne env nHeight { s4 with bestBlock := some blk.hash } qc = u :=
      ⟨_, rfl⟩
    rw [hu] at u1 u2 u3 u5 hub
    have m2 : ({ u with bestBlock := some prevHash } : ProcState).mined = s.mined := by
      show u.mined = s.mined
      rw [u1, ccm]
    have f2 : ({ u with bestBlock := some prevHash } : ProcState).invFlat = s.invFlat := by
      show u.invFlat = s.invFlat
      rw [u2, ccf]
    have i2 : ({ u with bestBlock := some prevHash } : ProcState).invIndexed = s.invIndexed := by
      show u.invIndexed = s.invIndexed
      rw [u3, cci]
    have hcoh2 : coherent { u with bestBlock := some prevHash } := by
      intro a b v hv
      have hv' : u.hasMinedCommitmentCache a b = some v := hv
      rw [u5] at hv'
      by_cases hab : a = qc.llmqType ∧ b = qc.quorumHash
      · obtain ⟨rfl, rfl⟩ := hab
        rw [set2_self] at hv'
        cases hv'
      · rw [set2_other _ _ _ _ _ _ hab] at hv'
        have hv'' : s4.hasMinedCommitmentCache a b = some v := hv'
        rw [e7] at hv''
        rw [set2_other _ _ _ _ _ _ hab] at hv''
        have hvv := hasMinedCommitment_coherent sc p.type qc.quorumHash cccoh a b v hv''
        rw [(hasMinedCommitment_frame sc p.type qc.quorumHash).1] at hvv
        show v = (u.mined a b).isSome
        rw [u1]
        exact hvv
    obtain ⟨sc', s4', hccl', hpc', hpb3, ccm', ccf', cci', _, e3', e7', e8'⟩ :=
      processBlock_single_commit env { u with bestBlock := some prevHash } qc p
        blk nHeight ch fBLSChecks hp hpt hch hQ hq0 hnn hmine hver
        (by rw [show ({ u with bestBlock := some prevHash } : ProcState).mined = s.mined from m2]
            exact hmined)
        hcoh2 hdip hext
        (by
          intro q hq
          rw [show ({ u with bestBlock := some prevHash } : ProcState).mined = s.mined from m2]
          exact hreq q hq)
    refine ⟨{ s4 with bestBlock := some blk.hash },
      { u with bestBlock := some prevHash },
      { s4' with bestBlock := some blk.hash },
      hpb1, hub, hpb3, ?_, ?_, ?_, rfl⟩
    · show s4'.mined = s4.mined
      rw [e3', e3, m2]
    · show s4'.invFlat = s4.invFlat
      rcases e8 with ⟨r, di, df⟩ | ⟨r, df, di⟩ <;>
        rcases e8' with ⟨r', di', df'⟩ | ⟨r', df', di'⟩
      · rw [df', df, f2]
      · rw [r] at r'
        cases r'
      · rw [r] at r'
        cases r'
      · rw [df', df, f2]
    · show s4'.invIndexed = s4.invIndexed
      rcases e8 with ⟨r, di, df⟩ | ⟨r, df, di⟩ <;>
        rcases e8' with ⟨r', di', df'⟩ | ⟨r', df', di'⟩
      · rw [di', di, i2]
      · rw [r] at r'
        cases r'
      · rw [r] at r'
        cases r'
      · rw [di', di, i2]

end llmq

namespace llmq

/-- Witness for C2 on the concrete fixtures: committing and undoing `exA`
at height 29 restores the empty store, and process/undo/reprocess of
`exBlock` agrees with the single pass. -/
theorem c2_commit_undo_exactness_witness :
    (∃ s4, processCommitment exEnv emptyState 29 77 exA false true = .ok s4
      ∧ (undoOne exEnv 29 s4 exA).mined = emptyState.mined
      ∧ (undoOne exEnv 29 s4 exA).invFlat = emptyState.invFlat
      ∧ (undoOne exEnv 29 s4 exA).invIndexed = emptyState.invIndexed
      ∧ (undoOne exEnv 29 s4 exA).hasMinedCommitmentCache = emptyState.hasMinedCommitmentCache
      ∧ (undoOne exEnv 29 s4 exA).bestBlock = emptyState.bestBlock)
    ∧ (∃ s1 s2 s3,
        processBlock exEnv emptyState exBlock 29 false true = .ok s1
        ∧ undoBlock exEnv s1 exBlock 29 70 = .ok s2
        ∧ processBlock exEnv s2 exBlock 29 false true = .ok s3
        ∧ s3.mined = s1.mined ∧ s3.invFlat = s1.invFlat
        ∧ s3.invIndexed = s1.invIndexed ∧ s3.bestBlock = s1.bestBlock) :=
  c2_commit_undo_exactness exEnv emptyState exA exParams exBlock 29 77 29 70 true
    (by decide) (by decide) rfl (by decide) (by decide) (by decide) (by decide)
    rfl rfl rfl rfl rfl rfl (fun _ _ _ h => nomatch h) (by decide) rfl
    (by
      intro q hq
      have hq' : q ∈ [exParams] := hq
      rw [List.mem_singleton.mp hq']
      decide)

end llmq
